import Mathlib

/-!
Verification of the demand-paging simulator (`demand.cpp`) and the paging
model shared with `paged.cpp`.

Modelling conventions:
* C++ `int` fields hold `Int` where negative sentinels (-1) occur and `Nat`
  where the program only ever stores non-negative values (sizes, frame
  indices).  `uint8_t referenced` is a `Nat`; all writes the program performs
  (`>>= 1`, `= 0x80`, `|= 0x80`, `= 0`) keep it below 256, which is proved as
  an invariant rather than baked in with a modulus.
* A `std::map<int, T>` whose value is only ever read through `operator[]`
  (lookup with default-insertion) is modelled as a total function
  `Int → T` whose value at absent keys is the C++ value-initialized row;
  default-insertion is then invisible except for the key set, which is kept
  separately (`pmtKeys`) exactly where the program observes it
  (the `pageKeys.empty()` check).
* The Memory Map Table has keys exactly `0 .. numFrames-1`, created at
  initialization and never extended, so it is a `List MemoryMapTableRow`
  whose position is the frame key; keyed accesses `MMT[f]` become positional
  accesses, and map iteration (ascending keys) becomes list order.
* The random driver is abstracted by an explicit access trace: in the source
  every access draws a registered `(jobId, pageNumber)`; theorems quantify
  over the trace, and each `simulateDemandPaging` call in `main` consumes the
  trace induced by its own, independently seeded generator.
* `printf` output that carries per-access information (hit/fault, loaded
  frame, replacement) is recorded in an append-only `log`; purely cosmetic
  printing and the floating-point ratios are not modelled.
-/

/-- Update a function-represented map at one key. -/
def updI {α : Type} (f : Int → α) (k : Int) (v : α) : Int → α :=
  fun x => if x = k then v else f x

/-- A job with id and size (`struct Job`). -/
structure Job where
  id : Int
  size : Nat
deriving DecidableEq, Repr

/-- A page with id and size (`struct Page`). -/
structure Page where
  id : Nat
  size : Nat
deriving DecidableEq, Repr

/-- Page Map Table row (`struct PageMapTableRow`). -/
structure PageMapTableRow where
  pageNumber : Int
  pageFrameId : Int
  inMemory : Bool
  referenced : Nat
deriving DecidableEq, Repr

/-- The C++ value-initialized `PageMapTableRow` produced by `operator[]` on
an absent key: all ints zero, bool false. -/
def defaultPMTRow : PageMapTableRow :=
  { pageNumber := 0, pageFrameId := 0, inMemory := false, referenced := 0 }

/-- Job Table row (`struct JobTableRow`); `pmtKeys` is the key set of the
`std::map` PMT, `pmt` its lookup-with-default. -/
structure JobTableRow where
  id : Int
  size : Int
  pmtKeys : List Int
  pmt : Int → PageMapTableRow

/-- The C++ value-initialized `JobTableRow`. -/
def defaultJobRow : JobTableRow :=
  { id := 0, size := 0, pmtKeys := [], pmt := fun _ => defaultPMTRow }

/-- Memory Map Table row (`struct MemoryMapTableRow`). -/
structure MemoryMapTableRow where
  jobId : Int
  pageFrameNumber : Nat
  pageNumber : Int
  busy : Bool
deriving DecidableEq, Repr

/-- The C++ value-initialized `MemoryMapTableRow`. -/
def defaultMMTRow : MemoryMapTableRow :=
  { jobId := 0, pageFrameNumber := 0, pageNumber := 0, busy := false }

/-- Error kinds of §7 of the spec.  `InvalidInput` corresponds to the
`runtime_error`/`invalid_argument` throws on non-positive inputs,
`NoVictimAvailable` to the two replacement-time throws.  `UnknownPage` is the
spec's name for a failed page-table lookup; the source has no such throw
(its lookup default-inserts), the constructor exists to state that claim. -/
inductive DemandError where
  | InvalidInput
  | UnknownPage
  | NoVictimAvailable
deriving DecidableEq, Repr

/-- The loop of `divideIntoPages` (both sources, lines 64-78 / 77-91):
`while (size >= pageSize)` emit a full page, then one remainder page if the
remaining size is nonzero.  The recursion is driven by an explicit fuel
parameter so that the definition is structural and concrete runs compute by
kernel reduction; `pagesLoop` passes `size` as fuel, which the guard can
never exhaust when `pageSize ≥ 1` (each iteration takes at least one unit
off `size`), so the fuel-0 arm is unreachable at every call site.  The
`0 < pageSize` conjunct in the guard makes that argument possible; the C++
loop simply does not terminate when `pageSize ≤ 0`, and both `main`s reject
such inputs before calling `divideIntoPages`. -/
def pagesGo (fuel i size pageSize : Nat) : List Page :=
  match fuel with
  | 0 => if size ≠ 0 then [{ id := i, size := size }] else []
  | fuel + 1 =>
      if 0 < pageSize ∧ pageSize ≤ size then
        { id := i, size := pageSize } :: pagesGo fuel (i + 1) (size - pageSize) pageSize
      else if size ≠ 0 then [{ id := i, size := size }] else []

/-- `while (size >= pageSize)` of `divideIntoPages`, at full fuel. -/
def pagesLoop (i size pageSize : Nat) : List Page :=
  pagesGo size i size pageSize

/-- `divideIntoPages(const Job&, int pageSize)`: split a job into pages and
build the fresh PMT (pageFrameId = -1, not in memory, reference clear). -/
def divideIntoPages (j : Job) (pageSize : Nat) :
    List Page × (Int → PageMapTableRow) :=
  let res := pagesLoop 0 j.size pageSize
  (res,
   res.foldl
     (fun f pg =>
       updI f (pg.id : Int)
         { pageNumber := (pg.id : Int), pageFrameId := -1,
           inMemory := false, referenced := 0 })
     (fun _ => defaultPMTRow))

/-- The input validation of `paged.cpp` `main` (lines 122-127) in front of
`divideIntoPages`: page size and job size must be positive, otherwise the
run aborts with the invalid-input error. -/
def splitChecked (pageSize jobSize : Int) :
    Except DemandError (List Page × (Int → PageMapTableRow)) :=
  if pageSize ≤ 0 then .error .InvalidInput
  else if jobSize ≤ 0 then .error .InvalidInput
  else .ok (divideIntoPages { id := 1, size := jobSize.toNat } pageSize.toNat)

/-- The input validation of `demand.cpp` `main` (lines 417-431): all four
scalar inputs positive, then each job size positive. -/
def validateSimInputs (pageSize numJobs numFrames numAccesses : Int)
    (jobSizes : List Int) : Except DemandError Unit :=
  if pageSize ≤ 0 ∨ numJobs ≤ 0 ∨ numFrames ≤ 0 ∨ numAccesses ≤ 0 then
    .error .InvalidInput
  else if jobSizes.any (fun sz => decide (sz ≤ 0)) then .error .InvalidInput
  else .ok ()

/-- One structured record per processed access (the information the per-access
`printf`s emit). -/
inductive AccessOutcome where
  | hit (jobId pageNum : Int)
  | loadFree (jobId pageNum : Int) (frame : Nat)
  | replace (jobId pageNum : Int) (victim : Nat) (oldJob oldPage : Int)
deriving DecidableEq, Repr

/-- The simulation state of `simulateDemandPaging`: job table, memory map
table, FIFO admission queue, and the two counters. -/
structure SimState where
  JT : Int → JobTableRow
  MMT : List MemoryMapTableRow
  fifoQueue : List Nat
  pageFaults : Nat
  pageHits : Nat
  log : List AccessOutcome

/-- Read `JT[j].PMT[p]` (values only; key insertion is tracked separately). -/
def getRow (JT : Int → JobTableRow) (j p : Int) : PageMapTableRow :=
  (JT j).pmt p

/-- Write `JT[j].PMT[p] = row`. -/
def setRow (JT : Int → JobTableRow) (j p : Int) (row : PageMapTableRow) :
    Int → JobTableRow :=
  updI JT j { JT j with pmt := updI (JT j).pmt p row }

/-- The MMT row of frame `i` (`MMT[i]`; positional under the key = position
representation). -/
def rowAt (s : SimState) (i : Nat) : MemoryMapTableRow :=
  s.MMT.getD i defaultMMTRow

/-- The referenced mask of the page resident in frame `i`. -/
def refOfFrame (s : SimState) (i : Nat) : Nat :=
  (getRow s.JT (rowAt s i).jobId (rowAt s i).pageNumber).referenced

/-- Index of the first non-busy frame in map-iteration (ascending) order:
the free-frame scans of the main loop (lines 348-353) and of `FIFO`/`LRU`
(lines 131, 184). -/
def firstFreeIdx : List MemoryMapTableRow → Option Nat
  | [] => none
  | r :: rest =>
      if r.busy then (firstFreeIdx rest).map (· + 1) else some 0

/-- The victim scan of `LRU` (lines 202-215): walk the MMT in ascending
order keeping the strictly smallest referenced mask seen so far, starting
from `(lruFrame = -1, smallestRef = 0xFF)`; `-1` is modelled as `none`. -/
def lruFold (JT : Int → JobTableRow) (acc : Option Nat × Nat) :
    List MemoryMapTableRow → Option Nat × Nat
  | [] => acc
  | r :: rest =>
      lruFold JT
        (if r.busy then
          if (getRow JT r.jobId r.pageNumber).referenced < acc.2 then
            (some r.pageFrameNumber, (getRow JT r.jobId r.pageNumber).referenced)
          else acc
        else acc) rest

/-- `int FIFO(JT, MMT, fifoQueue, jobId, pageNum, pageSize)`
(demand.cpp lines 127-179). -/
def FIFO (s : SimState) (jobId pageNum : Int) : Except DemandError SimState :=
  match firstFreeIdx s.MMT with
  | some idx =>
      -- free frame: load there, push the frame on the admission queue
      let r := s.MMT.getD idx defaultMMTRow
      let frameNum := r.pageFrameNumber
      .ok { s with
        JT := setRow s.JT jobId pageNum
          { getRow s.JT jobId pageNum with
            pageFrameId := (frameNum : Int), inMemory := true },
        MMT := s.MMT.set idx { r with pageNumber := pageNum, busy := true, jobId := jobId },
        fifoQueue := s.fifoQueue ++ [frameNum],
        log := s.log ++ [.loadFree jobId pageNum frameNum] }
  | none =>
      match s.fifoQueue with
      | [] => .error .NoVictimAvailable   -- "FIFO queue is empty" throw
      | f :: rest =>
          let mrow := s.MMT.getD f defaultMMTRow
          let oldJob := mrow.jobId
          let oldPage := mrow.pageNumber
          -- mark oldest out of memory
          let JT1 := setRow s.JT oldJob oldPage
            { getRow s.JT oldJob oldPage with inMemory := false, pageFrameId := -1 }
          -- load new page into replaced frame
          let JT2 := setRow JT1 jobId pageNum
            { getRow JT1 jobId pageNum with pageFrameId := (f : Int), inMemory := true }
          .ok { s with
            JT := JT2,
            MMT := s.MMT.set f { mrow with pageNumber := pageNum, jobId := jobId, busy := true },
            fifoQueue := rest ++ [f],
            log := s.log ++ [.replace jobId pageNum f oldJob oldPage] }

/-- `int LRU(JT, MMT, jobId, pageNum, pageSize)` (demand.cpp lines 182-242). -/
def LRU (s : SimState) (jobId pageNum : Int) : Except DemandError SimState :=
  match firstFreeIdx s.MMT with
  | some idx =>
      let r := s.MMT.getD idx defaultMMTRow
      let frameNum := r.pageFrameNumber
      .ok { s with
        JT := setRow s.JT jobId pageNum
          { getRow s.JT jobId pageNum with
            pageFrameId := (frameNum : Int), inMemory := true, referenced := 128 },
        MMT := s.MMT.set idx { r with pageNumber := pageNum, jobId := jobId, busy := true },
        log := s.log ++ [.loadFree jobId pageNum frameNum] }
  | none =>
      match (lruFold s.JT (none, 255) s.MMT).1 with
      | none => .error .NoVictimAvailable   -- "No frame found for replacement" throw
      | some lruFrame =>
          let mrow := s.MMT.getD lruFrame defaultMMTRow
          let oldJob := mrow.jobId
          let oldPage := mrow.pageNumber
          -- mark old page out of memory, clear its reference mask
          let JT1 := setRow s.JT oldJob oldPage
            { getRow s.JT oldJob oldPage with
              inMemory := false, pageFrameId := -1, referenced := 0 }
          -- load new page into replaced frame, MSB set
          let JT2 := setRow JT1 jobId pageNum
            { getRow JT1 jobId pageNum with
              pageFrameId := (lruFrame : Int), inMemory := true, referenced := 128 }
          .ok { s with
            JT := JT2,
            MMT := s.MMT.set lruFrame { mrow with pageNumber := pageNum, jobId := jobId, busy := true },
            log := s.log ++ [.replace jobId pageNum lruFrame oldJob oldPage] }

/-- Aging of one PMT row (lines 330-334): resident rows have their
referenced mask shifted right one bit, others are untouched. -/
def ageRow (r : PageMapTableRow) : PageMapTableRow :=
  if r.inMemory then { r with referenced := r.referenced / 2 } else r

/-- The process-wide aging loop: age every PMT row of every job. -/
def ageJT (JT : Int → JobTableRow) : Int → JobTableRow :=
  fun j => { JT j with pmt := fun p => ageRow ((JT j).pmt p) }

/-- `PMT[pageNum]` via `operator[]` (line 328): record the key (the row value
at an absent key already equals the value-initialized row). -/
def registerKey (s : SimState) (jobId pageNum : Int) : SimState :=
  { s with
    JT := updI s.JT jobId
      { s.JT jobId with
        pmtKeys :=
          if pageNum ∈ (s.JT jobId).pmtKeys then (s.JT jobId).pmtKeys
          else (s.JT jobId).pmtKeys ++ [pageNum] } }

/-- Hit/fault resolution on the already-aged state (lines 336-374): on a hit
set the MSB of the touched page; on a fault load into the first free frame
(pushing it on the FIFO queue) or, with memory full, delegate to the active
replacement policy. -/
def resolvePostAge (replacement : Bool) (jobId pageNum : Int) (s : SimState) :
    Except DemandError SimState :=
  let row := getRow s.JT jobId pageNum
  if row.inMemory then
    .ok { s with
      pageHits := s.pageHits + 1,
      JT := setRow s.JT jobId pageNum { row with referenced := row.referenced ||| 128 },
      log := s.log ++ [.hit jobId pageNum] }
  else
    let s3 := { s with pageFaults := s.pageFaults + 1 }
    match firstFreeIdx s3.MMT with
    | some i =>
        let r := s3.MMT.getD i defaultMMTRow
        .ok { s3 with
          JT := setRow s3.JT jobId pageNum
            { row with pageFrameId := (i : Int), inMemory := true, referenced := 128 },
          MMT := s3.MMT.set i { r with pageNumber := pageNum, jobId := jobId, busy := true },
          fifoQueue := s3.fifoQueue ++ [i],
          log := s3.log ++ [.loadFree jobId pageNum i] }
    | none =>
        if replacement then FIFO s3 jobId pageNum else LRU s3 jobId pageNum

/-- One iteration of the simulation loop (lines 313-375) at a given
`(jobId, pageNum)` drawn by the driver: skip jobs with an empty PMT
(`continue`), otherwise register the key, age every resident page, then
resolve the access. -/
def accessStep (replacement : Bool) (jobId pageNum : Int) (s : SimState) :
    Except DemandError SimState :=
  if (s.JT jobId).pmtKeys = [] then .ok s
  else
    let s1 := registerKey s jobId pageNum
    let s2 := { s1 with JT := ageJT s1.JT }
    resolvePostAge replacement jobId pageNum s2

/-- Run the simulation loop over an access trace. -/
def runSim (replacement : Bool) : List (Int × Int) → SimState →
    Except DemandError SimState
  | [], s => .ok s
  | a :: rest, s =>
      match accessStep replacement a.1 a.2 s with
      | .error e => .error e
      | .ok s' => runSim replacement rest s'

/-- The job-table row built for one job (lines 262-268). -/
def initJobRow (jb : Job) (pageSize : Nat) : JobTableRow :=
  let d := divideIntoPages jb pageSize
  { id := jb.id, size := (jb.size : Int),
    pmtKeys := d.1.map (fun pg => (pg.id : Int)), pmt := d.2 }

/-- The freshly reset state `simulateDemandPaging` builds before its loop
(lines 257-307): jobs split into pages, all frames free, empty queue,
zero counters. -/
def initState (jobs : List Job) (numFrames pageSize : Nat) : SimState :=
  { JT := jobs.foldl (fun f jb => updI f jb.id (initJobRow jb pageSize))
      (fun _ => defaultJobRow),
    MMT := (List.range numFrames).map
      (fun i => { jobId := -1, pageFrameNumber := i, pageNumber := -1, busy := false }),
    fifoQueue := [],
    pageFaults := 0,
    pageHits := 0,
    log := [] }

/-- `simulateDemandPaging` with the random draws abstracted into `trace`:
build the fresh state, then process every access. -/
def simulateDemandPaging (numFrames pageSize : Nat) (jobs : List Job)
    (trace : List (Int × Int)) (replacement : Bool) :
    Except DemandError SimState :=
  runSim replacement trace (initState jobs numFrames pageSize)

/-- The driver (`main`, lines 439-450): one FIFO run then one LRU run, each
with its own freshly built state and each consuming the trace produced by
its own independently seeded random generator. -/
def mainRun (jobs : List Job) (numFrames pageSize : Nat)
    (t1 t2 : List (Int × Int)) :
    Except DemandError SimState × Except DemandError SimState :=
  (simulateDemandPaging numFrames pageSize jobs t1 true,
   simulateDemandPaging numFrames pageSize jobs t2 false)

/-- The `(jobId, pageNumber)` pairs of a log: the access sequence a run
actually consumed. -/
def logPairs : List AccessOutcome → List (Int × Int)
  | [] => []
  | .hit j p :: rest => (j, p) :: logPairs rest
  | .loadFree j p _ :: rest => (j, p) :: logPairs rest
  | .replace j p _ _ _ :: rest => (j, p) :: logPairs rest

/-- Extract the final state of a successful run (dummy state on error). -/
def stateOf (e : Except DemandError SimState) : SimState :=
  match e with
  | .ok s => s
  | .error _ => initState [] 0 0

/-- The 1:1 frame / page-table correspondence of the data model: every busy
frame names a resident PMT entry pointing back at it, no two busy frames
share an occupant, every resident entry points at a busy frame holding it,
and the busy count never exceeds the frame count. -/
def TablesConsistent (s' : SimState) (numFrames : Nat) : Prop :=
  (∀ i, i < s'.MMT.length → (rowAt s' i).busy = true →
      (getRow s'.JT (rowAt s' i).jobId (rowAt s' i).pageNumber).inMemory = true ∧
      (getRow s'.JT (rowAt s' i).jobId (rowAt s' i).pageNumber).pageFrameId = (i : Int)) ∧
  (∀ i1 i2, i1 < s'.MMT.length → i2 < s'.MMT.length →
      (rowAt s' i1).busy = true → (rowAt s' i2).busy = true →
      (rowAt s' i1).jobId = (rowAt s' i2).jobId →
      (rowAt s' i1).pageNumber = (rowAt s' i2).pageNumber → i1 = i2) ∧
  (∀ j p, (getRow s'.JT j p).inMemory = true →
      ∃ i, i < s'.MMT.length ∧ (rowAt s' i).busy = true ∧ (rowAt s' i).jobId = j ∧
        (rowAt s' i).pageNumber = p ∧ (getRow s'.JT j p).pageFrameId = (i : Int)) ∧
  s'.MMT.length = numFrames ∧
  s'.MMT.countP (fun r => r.busy) ≤ numFrames

/-- Concrete state with one resident page (after one access); used to
instantiate hit-path theorems. -/
def hitState : SimState :=
  stateOf (simulateDemandPaging 2 100 [{ id := 0, size := 250 }] [(0, 0)] true)

/-- Concrete state with every frame busy (after three accesses under LRU);
used to instantiate replacement theorems. -/
def fullState : SimState :=
  stateOf (simulateDemandPaging 2 100 [{ id := 0, size := 250 }]
    [(0, 0), (0, 1), (0, 2)] false)

/-- Concrete final state of the C1 scenario under FIFO. -/
def runState : SimState :=
  stateOf (simulateDemandPaging 2 100 [{ id := 0, size := 250 }]
    [(0, 0), (0, 1), (0, 2), (0, 0)] true)

/-! ### Basic lemmas about the map and list representations -/

theorem updI_self {α : Type} (f : Int → α) (k : Int) (v : α) : updI f k v k = v := by
  simp [updI]

theorem updI_ne {α : Type} (f : Int → α) (k : Int) (v : α) (x : Int) (h : x ≠ k) :
    updI f k v x = f x := by
  simp [updI, h]

theorem getRow_setRow_self (JT : Int → JobTableRow) (j p : Int) (row : PageMapTableRow) :
    getRow (setRow JT j p row) j p = row := by
  simp [getRow, setRow, updI]

theorem getRow_setRow_ne (JT : Int → JobTableRow) (j p : Int) (row : PageMapTableRow)
    (j' p' : Int) (h : ¬(j' = j ∧ p' = p)) :
    getRow (setRow JT j p row) j' p' = getRow JT j' p' := by
  by_cases hj : j' = j
  · subst hj
    have hp : p' ≠ p := fun hp => h ⟨rfl, hp⟩
    simp [getRow, setRow, updI, hp]
  · simp [getRow, setRow, updI, hj]

theorem pmtKeys_setRow (JT : Int → JobTableRow) (j p : Int) (row : PageMapTableRow)
    (j' : Int) : ((setRow JT j p row) j').pmtKeys = (JT j').pmtKeys := by
  by_cases hj : j' = j
  · subst hj; simp [setRow, updI]
  · simp [setRow, updI, hj]

theorem getD_set_self {α : Type} (d : α) :
    ∀ (l : List α) (i : Nat) (a : α), i < l.length → (l.set i a).getD i d = a := by
  intro l
  induction l with
  | nil => intro i a h; simp at h
  | cons x xs IH =>
      intro i a h
      cases i with
      | zero => rfl
      | succ n => simpa using IH n a (by simpa using h)

theorem getD_set_ne {α : Type} (d : α) :
    ∀ (l : List α) (i k : Nat) (a : α), i ≠ k → (l.set i a).getD k d = l.getD k d := by
  intro l
  induction l with
  | nil => intro i k a _; rfl
  | cons x xs IH =>
      intro i k a h
      cases i with
      | zero =>
          cases k with
          | zero => exact absurd rfl h
          | succ m => simp
      | succ n =>
          cases k with
          | zero => simp
          | succ m => simpa using IH n m a (by omega)

theorem getD_append_lt {α : Type} (d : α) :
    ∀ (l1 l2 : List α) (n : Nat), n < l1.length → (l1 ++ l2).getD n d = l1.getD n d := by
  intro l1
  induction l1 with
  | nil => intro l2 n h; simp at h
  | cons x xs IH =>
      intro l2 n h
      cases n with
      | zero => rfl
      | succ m => simpa using IH l2 m (by simpa using h)

theorem getD_append_ge {α : Type} (d : α) :
    ∀ (l1 l2 : List α) (n : Nat), l1.length ≤ n →
      (l1 ++ l2).getD n d = l2.getD (n - l1.length) d := by
  intro l1
  induction l1 with
  | nil => intro l2 n _; simp
  | cons x xs IH =>
      intro l2 n h
      cases n with
      | zero => simp at h
      | succ m =>
          simpa [Nat.succ_sub_succ] using IH l2 m (by simpa using h)

theorem getD_range_map {α : Type} (f : Nat → α) (d : α) :
    ∀ (n i : Nat), i < n → ((List.range n).map f).getD i d = f i := by
  intro n
  induction n with
  | zero => intro i h; omega
  | succ m IH =>
      intro i hi
      rw [List.range_succ, List.map_append]
      by_cases h : i < m
      · rw [getD_append_lt d _ _ _ (by simpa using h)]
        exact IH i h
      · have him : i = m := by omega
        subst him
        rw [getD_append_ge d _ _ _ (by simp)]
        simp

/-- Bitwise-or with 128 keeps a byte a byte. -/
theorem or128_lt (a : Nat) (h : a < 256) : a ||| 128 < 256 := by
  have h8 : (256 : Nat) = 2 ^ 8 := by norm_num
  rw [h8] at h ⊢
  exact Nat.or_lt_two_pow h (by norm_num)

/-- Pointwise property of a function-map built by a fold of single-key
updates. -/
theorem foldl_updI_prop {α β : Type} (Q : α → Prop) (key : β → Int) (val : β → α) :
    ∀ (bs : List β) (f : Int → α), (∀ k, Q (f k)) → (∀ b, Q (val b)) →
      ∀ k, Q ((bs.foldl (fun g b => updI g (key b) (val b)) f) k) := by
  intro bs
  induction bs with
  | nil => intro f hf _ k; exact hf k
  | cons b rest IH =>
      intro f hf hv k
      refine IH _ (fun k' => ?_) hv k
      show Q (updI f (key b) (val b) k')
      by_cases hk : k' = key b
      · subst hk; rw [updI_self]; exact hv b
      · rw [updI_ne _ _ _ _ hk]; exact hf k'

/-! ### Free-frame scan -/

theorem firstFreeIdx_none_busy :
    ∀ (l : List MemoryMapTableRow), firstFreeIdx l = none →
      ∀ i, i < l.length → (l.getD i defaultMMTRow).busy = true := by
  intro l
  induction l with
  | nil => intro _ i h; simp at h
  | cons r rest IH =>
      intro h i hi
      rw [firstFreeIdx] at h
      by_cases hb : r.busy
      · cases i with
        | zero => simpa using hb
        | succ n =>
            simp only [if_pos hb, Option.map_eq_none'] at h
            simpa using IH h n (by simpa using hi)
      · simp [if_neg hb] at h

theorem firstFreeIdx_some_free :
    ∀ (l : List MemoryMapTableRow) (i : Nat), firstFreeIdx l = some i →
      i < l.length ∧ (l.getD i defaultMMTRow).busy = false := by
  intro l
  induction l with
  | nil => intro i h; simp [firstFreeIdx] at h
  | cons r rest IH =>
      intro i h
      rw [firstFreeIdx] at h
      by_cases hb : r.busy
      · simp only [if_pos hb, Option.map_eq_some'] at h
        obtain ⟨i', hi', rfl⟩ := h
        obtain ⟨h1, h2⟩ := IH i' hi'
        exact ⟨by simpa using h1, by simpa using h2⟩
      · simp only [if_neg hb] at h
        cases h
        refine ⟨by simp, ?_⟩
        simpa using eq_false_of_ne_true hb

theorem firstFreeIdx_none_of_all_busy :
    ∀ (l : List MemoryMapTableRow),
      (∀ i, i < l.length → (l.getD i defaultMMTRow).busy = true) →
      firstFreeIdx l = none := by
  intro l
  induction l with
  | nil => intro _; rfl
  | cons r rest IH =>
      intro h
      have hb : r.busy = true := by simpa using h 0 (by simp)
      rw [firstFreeIdx, if_pos hb, IH (fun i hi => by simpa using h (i + 1) (by simpa using hi))]
      rfl

/-! ### The reachable-state invariant -/

/-- The bookkeeping invariant `simulateDemandPaging` maintains: frame keys
match positions, busy frames and resident PMT entries point at each other,
reference masks are bytes, and the FIFO queue contains every busy frame and
only valid busy frames. -/
structure SimInv (s : SimState) : Prop where
  frames : ∀ i, i < s.MMT.length → (rowAt s i).pageFrameNumber = i
  f2p : ∀ i, i < s.MMT.length → (rowAt s i).busy = true →
    (getRow s.JT (rowAt s i).jobId (rowAt s i).pageNumber).inMemory = true ∧
    (getRow s.JT (rowAt s i).jobId (rowAt s i).pageNumber).pageFrameId = (i : Int)
  p2f : ∀ j p, (getRow s.JT j p).inMemory = true →
    ∃ i, i < s.MMT.length ∧ (rowAt s i).busy = true ∧ (rowAt s i).jobId = j ∧
      (rowAt s i).pageNumber = p ∧ (getRow s.JT j p).pageFrameId = (i : Int)
  refs : ∀ j p, (getRow s.JT j p).referenced < 256
  qmem : ∀ i, i < s.MMT.length → (rowAt s i).busy = true → i ∈ s.fifoQueue
  qval : ∀ f, f ∈ s.fifoQueue → f < s.MMT.length ∧ (rowAt s f).busy = true

theorem initState_rowAt (jobs : List Job) (numFrames pageSize : Nat) (i : Nat)
    (hi : i < numFrames) :
    rowAt (initState jobs numFrames pageSize) i =
      { jobId := -1, pageFrameNumber := i, pageNumber := -1, busy := false } := by
  unfold rowAt initState
  exact getD_range_map _ _ numFrames i hi

theorem initState_length (jobs : List Job) (numFrames pageSize : Nat) :
    (initState jobs numFrames pageSize).MMT.length = numFrames := by
  simp [initState]

theorem divide_pmt_clear (jb : Job) (pageSize : Nat) :
    ∀ q, ((divideIntoPages jb pageSize).2 q).inMemory = false ∧
      ((divideIntoPages jb pageSize).2 q).referenced = 0 := by
  intro q
  have h := foldl_updI_prop
    (fun r : PageMapTableRow => r.inMemory = false ∧ r.referenced = 0)
    (fun pg : Page => (pg.id : Int))
    (fun pg : Page => ⟨(pg.id : Int), -1, false, 0⟩)
    (pagesLoop 0 jb.size pageSize) (fun _ => defaultPMTRow)
    (fun _ => ⟨rfl, rfl⟩) (fun _ => ⟨rfl, rfl⟩) q
  exact h

theorem initState_notInMemory (jobs : List Job) (numFrames pageSize : Nat) :
    ∀ j p, (getRow (initState jobs numFrames pageSize).JT j p).inMemory = false ∧
      (getRow (initState jobs numFrames pageSize).JT j p).referenced = 0 := by
  intro j p
  have h := foldl_updI_prop
    (fun r : JobTableRow => ∀ q, (r.pmt q).inMemory = false ∧ (r.pmt q).referenced = 0)
    Job.id (fun jb => initJobRow jb pageSize) jobs (fun _ => defaultJobRow)
    (fun _ q => ⟨rfl, rfl⟩)
    (fun jb => divide_pmt_clear jb pageSize) j
  exact h p

theorem inv_init (jobs : List Job) (numFrames pageSize : Nat) :
    SimInv (initState jobs numFrames pageSize) := by
  have hlen := initState_length jobs numFrames pageSize
  refine ⟨?_, ?_, ?_, ?_, ?_, ?_⟩
  · intro i hi
    rw [initState_rowAt jobs numFrames pageSize i (by omega)]
  · intro i hi hb
    rw [initState_rowAt jobs numFrames pageSize i (by omega)] at hb
    simp at hb
  · intro j p hm
    rw [(initState_notInMemory jobs numFrames pageSize j p).1] at hm
    simp at hm
  · intro j p
    rw [(initState_notInMemory jobs numFrames pageSize j p).2]
    omega
  · intro i hi hb
    rw [initState_rowAt jobs numFrames pageSize i (by omega)] at hb
    simp at hb
  · intro f hf
    simp [initState] at hf

/-! ### Closed form of the page-splitting loop -/

theorem pagesGo_closed (P : Nat) (hP : 0 < P) :
    ∀ fuel S i, S ≤ fuel → pagesGo fuel i S P =
      ((List.range (S / P)).map fun k => Page.mk (i + k) P) ++
      (if S % P = 0 then [] else [Page.mk (i + S / P) (S % P)]) := by
  intro fuel
  induction fuel with
  | zero =>
      intro S i hS
      have : S = 0 := by omega
      subst this
      simp [pagesGo]
  | succ fuel IH =>
      intro S i hS
      rw [pagesGo]
      by_cases h : P ≤ S
      · rw [if_pos ⟨hP, h⟩, IH (S - P) (i + 1) (by omega)]
        rw [Nat.div_eq_sub_div hP h, Nat.mod_eq_sub_mod h]
        have hmap : (List.range ((S - P) / P + 1)).map (fun k => Page.mk (i + k) P) =
            Page.mk i P :: (List.range ((S - P) / P)).map (fun k => Page.mk (i + 1 + k) P) := by
          rw [List.range_succ_eq_map, List.map_cons, List.map_map]
          simp only [Nat.add_zero]
          congr 1
          apply List.map_congr_left
          intro k _
          simp only [Function.comp_apply]
          congr 1
          omega
        have hidx : i + ((S - P) / P + 1) = i + 1 + (S - P) / P := by omega
        rw [hmap, hidx, List.cons_append]
      · rw [if_neg (fun hc => h hc.2)]
        have h1 : S / P = 0 := Nat.div_eq_of_lt (by omega)
        have h2 : S % P = S := Nat.mod_eq_of_lt (by omega)
        rw [h1, h2]
        by_cases hS0 : S = 0
        · simp [hS0]
        · simp [hS0]

theorem pagesLoop_closed (P : Nat) (hP : 0 < P) :
    ∀ S i, pagesLoop i S P =
      ((List.range (S / P)).map fun k => Page.mk (i + k) P) ++
      (if S % P = 0 then [] else [Page.mk (i + S / P) (S % P)]) := by
  intro S i
  exact pagesGo_closed P hP S S i (le_refl S)

theorem ceil_div_eq (S P : Nat) (hP : 0 < P) :
    (S + P - 1) / P = S / P + if S % P = 0 then 0 else 1 := by
  have h := Nat.div_add_mod S P
  by_cases hr : S % P = 0
  · have he : S + P - 1 = P * (S / P) + (P - 1) := by omega
    have hz : (P - 1) / P = 0 := Nat.div_eq_of_lt (by omega)
    rw [he, Nat.mul_add_div hP, hz, hr]
    simp
  · have hrlt : S % P < P := Nat.mod_lt _ hP
    have hmul : P * (S / P + 1) = P * (S / P) + P := by ring
    have he : S + P - 1 = P * (S / P + 1) + (S % P - 1) := by omega
    have hz : (S % P - 1) / P = 0 := Nat.div_eq_of_lt (by omega)
    rw [he, Nat.mul_add_div hP, hz, if_neg hr]

/-! ### Specification of the LRU victim scan -/

/-- The referenced mask of the occupant a MMT row names. -/
def refO (JT : Int → JobTableRow) (r : MemoryMapTableRow) : Nat :=
  (getRow JT r.jobId r.pageNumber).referenced

/-- Full characterisation of `lruFold`: the running minimum only decreases,
bounds every busy row's mask, and either no strict improvement happened (the
accumulator survives and every busy row is at least the threshold) or the
result names the first busy row achieving the final minimum. -/
theorem lruFold_spec (JT : Int → JobTableRow) :
    ∀ (l : List MemoryMapTableRow) (acc : Option Nat × Nat),
      (lruFold JT acc l).2 ≤ acc.2 ∧
      (∀ i, i < l.length → (l.getD i defaultMMTRow).busy = true →
        (lruFold JT acc l).2 ≤ refO JT (l.getD i defaultMMTRow)) ∧
      ((lruFold JT acc l = acc ∧
          ∀ i, i < l.length → (l.getD i defaultMMTRow).busy = true →
            acc.2 ≤ refO JT (l.getD i defaultMMTRow)) ∨
        (∃ k, k < l.length ∧ (l.getD k defaultMMTRow).busy = true ∧
          (lruFold JT acc l).1 = some ((l.getD k defaultMMTRow).pageFrameNumber) ∧
          (lruFold JT acc l).2 = refO JT (l.getD k defaultMMTRow) ∧
          (lruFold JT acc l).2 < acc.2 ∧
          ∀ i, i < k → (l.getD i defaultMMTRow).busy = true →
            (lruFold JT acc l).2 < refO JT (l.getD i defaultMMTRow))) := by
  intro l
  induction l with
  | nil =>
      intro acc
      refine ⟨le_refl _, ?_, Or.inl ⟨rfl, ?_⟩⟩
      · intro i hi; simp at hi
      · intro i hi; simp at hi
  | cons r rest IH =>
      intro acc
      by_cases hb : r.busy = true
      · by_cases hlt : refO JT r < acc.2
        · -- strict improvement at the head
          have hlt2 : (getRow JT r.jobId r.pageNumber).referenced < acc.2 := hlt
          have hstep : lruFold JT acc (r :: rest) =
              lruFold JT (some r.pageFrameNumber, refO JT r) rest := by
            rw [lruFold]
            simp [refO, hb, hlt2]
          obtain ⟨IH1, IH2, IH3⟩ := IH (some r.pageFrameNumber, refO JT r)
          rw [hstep]
          refine ⟨le_of_lt (lt_of_le_of_lt IH1 hlt), ?_, ?_⟩
          · intro i hi hbi
            cases i with
            | zero => simpa using IH1
            | succ n =>
                simp only [List.getD_cons_succ] at hbi ⊢
                exact IH2 n (by simpa using hi) hbi
          · rcases IH3 with ⟨hEq, hAll⟩ | ⟨k, hk, hbk, h1, h2, hlt', htie⟩
            · refine Or.inr ⟨0, by simp, by simpa using hb, ?_, ?_, ?_, ?_⟩
              · rw [hEq]; simp
              · rw [hEq]; simp
              · rw [hEq]; exact hlt
              · intro i hi; omega
            · refine Or.inr ⟨k + 1, by simpa using hk, by simpa using hbk, by simpa using h1,
                by simpa using h2, lt_trans hlt' hlt, ?_⟩
              intro i hi hbi
              cases i with
              | zero =>
                  simp only [List.getD_cons_zero]
                  exact hlt'
              | succ n =>
                  simp only [List.getD_cons_succ] at hbi ⊢
                  exact htie n (by omega) hbi
        · -- busy but no improvement
          have hlt2 : ¬(getRow JT r.jobId r.pageNumber).referenced < acc.2 := hlt
          have hstep : lruFold JT acc (r :: rest) = lruFold JT acc rest := by
            rw [lruFold]
            simp [hb, hlt2]
          have hge : acc.2 ≤ refO JT r := by omega
          obtain ⟨IH1, IH2, IH3⟩ := IH acc
          rw [hstep]
          refine ⟨IH1, ?_, ?_⟩
          · intro i hi hbi
            cases i with
            | zero =>
                simp only [List.getD_cons_zero] at hbi ⊢
                exact le_trans IH1 hge
            | succ n =>
                simp only [List.getD_cons_succ] at hbi ⊢
                exact IH2 n (by simpa using hi) hbi
          · rcases IH3 with ⟨hEq, hAll⟩ | ⟨k, hk, hbk, h1, h2, hlt', htie⟩
            · refine Or.inl ⟨hEq, ?_⟩
              intro i hi hbi
              cases i with
              | zero => simpa using hge
              | succ n =>
                  simp only [List.getD_cons_succ] at hbi ⊢
                  exact hAll n (by simpa using hi) hbi
            · refine Or.inr ⟨k + 1, by simpa using hk, by simpa using hbk, by simpa using h1,
                by simpa using h2, hlt', ?_⟩
              intro i hi hbi
              cases i with
              | zero =>
                  simp only [List.getD_cons_zero] at hbi ⊢
                  exact lt_of_lt_of_le hlt' hge
              | succ n =>
                  simp only [List.getD_cons_succ] at hbi ⊢
                  exact htie n (by omega) hbi
      · -- head not busy: accumulator passes through
        have hstep : lruFold JT acc (r :: rest) = lruFold JT acc rest := by
          rw [lruFold]
          simp [hb]
        obtain ⟨IH1, IH2, IH3⟩ := IH acc
        rw [hstep]
        refine ⟨IH1, ?_, ?_⟩
        · intro i hi hbi
          cases i with
          | zero => simp only [List.getD_cons_zero] at hbi; exact absurd hbi hb
          | succ n =>
              simp only [List.getD_cons_succ] at hbi ⊢
              exact IH2 n (by simpa using hi) hbi
        · rcases IH3 with ⟨hEq, hAll⟩ | ⟨k, hk, hbk, h1, h2, hlt', htie⟩
          · refine Or.inl ⟨hEq, ?_⟩
            intro i hi hbi
            cases i with
            | zero => simp only [List.getD_cons_zero] at hbi; exact absurd hbi hb
            | succ n =>
                simp only [List.getD_cons_succ] at hbi ⊢
                exact hAll n (by simpa using hi) hbi
          · refine Or.inr ⟨k + 1, by simpa using hk, by simpa using hbk, by simpa using h1,
              by simpa using h2, hlt', ?_⟩
            intro i hi hbi
            cases i with
            | zero => simp only [List.getD_cons_zero] at hbi; exact absurd hbi hb
            | succ n =>
                simp only [List.getD_cons_succ] at hbi ⊢
                exact htie n (by omega) hbi

/-! ### Invariant transfer lemmas -/

theorem getRow_setRow (JT : Int → JobTableRow) (j p : Int) (row : PageMapTableRow)
    (a b : Int) :
    getRow (setRow JT j p row) a b =
      if a = j ∧ b = p then row else getRow JT a b := by
  by_cases hab : a = j ∧ b = p
  · obtain ⟨rfl, rfl⟩ := hab
    rw [getRow_setRow_self, if_pos ⟨rfl, rfl⟩]
  · rw [getRow_setRow_ne _ _ _ _ _ _ hab, if_neg hab]

theorem registerKey_getRow (s : SimState) (j p a b : Int) :
    getRow (registerKey s j p).JT a b = getRow s.JT a b := by
  by_cases hab : a = j
  · subst hab; simp [registerKey, getRow, updI]
  · simp [registerKey, getRow, updI, hab]

theorem ageRow_inMemory (r : PageMapTableRow) : (ageRow r).inMemory = r.inMemory := by
  by_cases h : r.inMemory = true <;> simp [ageRow, h]

theorem ageRow_pageFrameId (r : PageMapTableRow) :
    (ageRow r).pageFrameId = r.pageFrameId := by
  by_cases h : r.inMemory = true <;> simp [ageRow, h]

theorem ageRow_pageNumber (r : PageMapTableRow) :
    (ageRow r).pageNumber = r.pageNumber := by
  by_cases h : r.inMemory = true <;> simp [ageRow, h]

theorem ageRow_referenced (r : PageMapTableRow) :
    (ageRow r).referenced = if r.inMemory = true then r.referenced / 2 else r.referenced := by
  by_cases h : r.inMemory = true <;> simp [ageRow, h]

theorem ageJT_getRow (JT : Int → JobTableRow) (a b : Int) :
    getRow (ageJT JT) a b = ageRow (getRow JT a b) := rfl

/-- Transfer the invariant along a change that touches neither the MMT, the
queue, residency, nor frame pointers, and keeps masks bytes. -/
theorem simInv_of_pointwise (s T : SimState) (hInv : SimInv s)
    (hMMT : T.MMT = s.MMT) (hq : T.fifoQueue = s.fifoQueue)
    (hmem : ∀ a b, (getRow T.JT a b).inMemory = (getRow s.JT a b).inMemory)
    (hfid : ∀ a b, (getRow T.JT a b).pageFrameId = (getRow s.JT a b).pageFrameId)
    (href : ∀ a b, (getRow T.JT a b).referenced < 256) :
    SimInv T := by
  obtain ⟨h1, h2, h3, h4, h5, h6⟩ := hInv
  have hrowAt : ∀ i, rowAt T i = rowAt s i := fun i => by rw [rowAt, rowAt, hMMT]
  have hlen : T.MMT.length = s.MMT.length := by rw [hMMT]
  refine ⟨?_, ?_, ?_, href, ?_, ?_⟩
  · intro i hi
    rw [hrowAt]
    exact h1 i (by omega)
  · intro i hi hb
    rw [hrowAt] at hb ⊢
    rw [hmem, hfid]
    exact h2 i (by omega) hb
  · intro a b hm
    rw [hmem] at hm
    obtain ⟨i, hi, hb, hj, hp, hf⟩ := h3 a b hm
    exact ⟨i, by omega, by rw [hrowAt]; exact hb, by rw [hrowAt]; exact hj,
      by rw [hrowAt]; exact hp, by rw [hfid]; exact hf⟩
  · intro i hi hb
    rw [hrowAt] at hb
    rw [hq]
    exact h5 i (by omega) hb
  · intro f hf
    rw [hq] at hf
    obtain ⟨hl, hb⟩ := h6 f hf
    exact ⟨by omega, by rw [hrowAt]; exact hb⟩

theorem simInv_registerKey (s : SimState) (j p : Int) (hInv : SimInv s) :
    SimInv (registerKey s j p) :=
  simInv_of_pointwise s _ hInv rfl rfl
    (fun a b => by rw [registerKey_getRow])
    (fun a b => by rw [registerKey_getRow])
    (fun a b => by rw [registerKey_getRow]; exact hInv.refs a b)

theorem simInv_age (s : SimState) (hInv : SimInv s) :
    SimInv { s with JT := ageJT s.JT } := by
  refine simInv_of_pointwise s _ hInv rfl rfl ?_ ?_ ?_
  · intro a b
    show (ageRow (getRow s.JT a b)).inMemory = (getRow s.JT a b).inMemory
    rw [ageRow_inMemory]
  · intro a b
    show (ageRow (getRow s.JT a b)).pageFrameId = (getRow s.JT a b).pageFrameId
    rw [ageRow_pageFrameId]
  · intro a b
    show (ageRow (getRow s.JT a b)).referenced < 256
    rw [ageRow_referenced]
    have := hInv.refs a b
    by_cases hm : (getRow s.JT a b).inMemory = true
    · rw [if_pos hm]; omega
    · rw [if_neg hm]; omega

/-- After the aging pass, every resident mask fits in 7 bits. -/
theorem aged_refs_small (s : SimState) (hInv : SimInv s) :
    ∀ a b, (getRow (ageJT s.JT) a b).inMemory = true →
      (getRow (ageJT s.JT) a b).referenced < 128 := by
  intro a b hm
  have h4 := hInv.refs a b
  rw [ageJT_getRow, ageRow_inMemory] at hm
  rw [ageJT_getRow, ageRow_referenced, if_pos hm]
  omega

/-- Hit bookkeeping (set the MSB of the touched resident page) preserves the
invariant. -/
theorem simInv_hit (s : SimState) (j p : Int) (hInv : SimInv s)
    (n m : Nat) (L : List AccessOutcome) :
    SimInv { JT := setRow s.JT j p
               ({ getRow s.JT j p with
                  referenced := (getRow s.JT j p).referenced ||| 128 }),
             MMT := s.MMT, fifoQueue := s.fifoQueue,
             pageFaults := n, pageHits := m, log := L } := by
  refine simInv_of_pointwise s _ hInv rfl rfl ?_ ?_ ?_
  · intro a b
    show (getRow (setRow s.JT j p _) a b).inMemory = _
    rw [getRow_setRow]
    by_cases hab : a = j ∧ b = p
    · obtain ⟨rfl, rfl⟩ := hab
      rw [if_pos ⟨rfl, rfl⟩]
    · rw [if_neg hab]
  · intro a b
    show (getRow (setRow s.JT j p _) a b).pageFrameId = _
    rw [getRow_setRow]
    by_cases hab : a = j ∧ b = p
    · obtain ⟨rfl, rfl⟩ := hab
      rw [if_pos ⟨rfl, rfl⟩]
    · rw [if_neg hab]
  · intro a b
    show (getRow (setRow s.JT j p _) a b).referenced < 256
    rw [getRow_setRow]
    by_cases hab : a = j ∧ b = p
    · obtain ⟨rfl, rfl⟩ := hab
      rw [if_pos ⟨rfl, rfl⟩]
      exact or128_lt _ (hInv.refs a b)
    · rw [if_neg hab]
      exact hInv.refs a b

/-- Loading a faulting page into a free frame preserves the invariant. -/
theorem simInv_freeload (s : SimState) (j p : Int) (i : Nat)
    (n m : Nat) (L : List AccessOutcome) (hInv : SimInv s)
    (hres : (getRow s.JT j p).inMemory = false)
    (hi : i < s.MMT.length) (hfree : (rowAt s i).busy = false) :
    SimInv { JT := setRow s.JT j p
               ({ getRow s.JT j p with
                  pageFrameId := (i : Int), inMemory := true, referenced := 128 }),
             MMT := s.MMT.set i
               ({ rowAt s i with pageNumber := p, jobId := j, busy := true }),
             fifoQueue := s.fifoQueue ++ [i],
             pageFaults := n, pageHits := m, log := L } := by
  obtain ⟨h1, h2, h3, h4, h5, h6⟩ := hInv
  set newRow : PageMapTableRow :=
    { getRow s.JT j p with pageFrameId := (i : Int), inMemory := true, referenced := 128 } with hnew
  set T : SimState :=
    { JT := setRow s.JT j p newRow,
      MMT := s.MMT.set i ({ rowAt s i with pageNumber := p, jobId := j, busy := true }),
      fifoQueue := s.fifoQueue ++ [i],
      pageFaults := n, pageHits := m, log := L } with hT
  have hlen : T.MMT.length = s.MMT.length := by simp [hT]
  have hrowAt_i : rowAt T i = { rowAt s i with pageNumber := p, jobId := j, busy := true } := by
    rw [rowAt]
    exact getD_set_self _ _ _ _ (by omega)
  have hrowAt_ne : ∀ k, k ≠ i → rowAt T k = rowAt s k := by
    intro k hk
    rw [rowAt, rowAt]
    exact getD_set_ne _ _ _ _ _ (fun hik => hk hik.symm)
  have hget : ∀ a b, getRow T.JT a b = if a = j ∧ b = p then newRow else getRow s.JT a b :=
    fun a b => getRow_setRow s.JT j p newRow a b
  have hoccne : ∀ k, k < s.MMT.length → k ≠ i → (rowAt s k).busy = true →
      ¬((rowAt s k).jobId = j ∧ (rowAt s k).pageNumber = p) := by
    intro k hk _ hb hc
    have := (h2 k hk hb).1
    rw [hc.1, hc.2, hres] at this
    simp at this
  refine ⟨?_, ?_, ?_, ?_, ?_, ?_⟩
  · intro k hk
    by_cases hki : k = i
    · subst hki
      rw [hrowAt_i]
      exact h1 k (by omega)
    · rw [hrowAt_ne k hki]
      exact h1 k (by omega)
  · intro k hk hb
    by_cases hki : k = i
    · subst hki
      rw [hrowAt_i]
      show (getRow T.JT j p).inMemory = true ∧ (getRow T.JT j p).pageFrameId = (k : Int)
      rw [hget, if_pos ⟨rfl, rfl⟩, hnew]
      exact ⟨rfl, rfl⟩
    · rw [hrowAt_ne k hki] at hb ⊢
      have hkl : k < s.MMT.length := by omega
      have hne := hoccne k hkl hki hb
      rw [hget, if_neg hne]
      exact h2 k hkl hb
  · intro a b hm
    rw [hget] at hm
    by_cases hab : a = j ∧ b = p
    · obtain ⟨rfl, rfl⟩ := hab
      refine ⟨i, by omega, ?_, ?_, ?_, ?_⟩
      · rw [hrowAt_i]
      · rw [hrowAt_i]
      · rw [hrowAt_i]
      · rw [hget, if_pos ⟨rfl, rfl⟩, hnew]
    · rw [if_neg hab] at hm
      obtain ⟨k, hk, hb, hj, hp, hf⟩ := h3 a b hm
      have hki : k ≠ i := by
        intro hki
        subst hki
        rw [hfree] at hb
        simp at hb
      refine ⟨k, by omega, ?_, ?_, ?_, ?_⟩
      · rw [hrowAt_ne k hki]; exact hb
      · rw [hrowAt_ne k hki]; exact hj
      · rw [hrowAt_ne k hki]; exact hp
      · rw [hget, if_neg hab]; exact hf
  · intro a b
    rw [hget]
    by_cases hab : a = j ∧ b = p
    · rw [if_pos hab]; simp [hnew]
    · rw [if_neg hab]; exact h4 a b
  · intro k hk hb
    by_cases hki : k = i
    · subst hki
      exact List.mem_append_right _ (by simp)
    · rw [hrowAt_ne k hki] at hb
      exact List.mem_append_left _ (h5 k (by omega) hb)
  · intro f hf
    rcases List.mem_append.mp hf with hf1 | hf2
    · obtain ⟨hl, hb⟩ := h6 f hf1
      have hfi : f ≠ i := by
        intro hfi
        subst hfi
        rw [hfree] at hb
        simp at hb
      exact ⟨by omega, by rw [hrowAt_ne f hfi]; exact hb⟩
    · have hfi : f = i := by simpa using hf2
      subst hfi
      refine ⟨by omega, ?_⟩
      rw [hrowAt_i]

/-- Replacing the occupant of a busy frame `f` by a non-resident faulting
page `(j, p)` preserves the invariant; the queue may be rearranged as long
as it still holds exactly the busy frames. -/
theorem simInv_replace (s : SimState) (j p oj op : Int) (f : Nat)
    (newRef oldRef : Nat) (q' : List Nat) (n m : Nat) (L : List AccessOutcome)
    (hInv : SimInv s)
    (hoj : oj = (rowAt s f).jobId) (hop : op = (rowAt s f).pageNumber)
    (hres : (getRow s.JT j p).inMemory = false)
    (hf : f < s.MMT.length) (hbusy : (rowAt s f).busy = true)
    (hnewRef : newRef < 256) (holdRef : oldRef < 256)
    (hq1 : ∀ k, k < s.MMT.length → (rowAt s k).busy = true → k ≠ f → k ∈ q')
    (hq2 : f ∈ q')
    (hq3 : ∀ g, g ∈ q' → g < s.MMT.length ∧ (rowAt s g).busy = true) :
    SimInv { JT := setRow (setRow s.JT oj op
                 ({ getRow s.JT oj op with
                    inMemory := false, pageFrameId := -1, referenced := oldRef })) j p
               ({ getRow (setRow s.JT oj op
                    ({ getRow s.JT oj op with
                       inMemory := false, pageFrameId := -1, referenced := oldRef })) j p with
                  pageFrameId := (f : Int), inMemory := true, referenced := newRef }),
             MMT := s.MMT.set f ({ rowAt s f with pageNumber := p, jobId := j, busy := true }),
             fifoQueue := q', pageFaults := n, pageHits := m, log := L } := by
  subst hoj
  subst hop
  obtain ⟨h1, h2, h3, h4, h5, h6⟩ := hInv
  have hocc := h2 f hf hbusy
  have hne : ¬(j = (rowAt s f).jobId ∧ p = (rowAt s f).pageNumber) := by
    intro hc
    rw [hc.1, hc.2, hocc.1] at hres
    simp at hres
  set outRow : PageMapTableRow :=
    { getRow s.JT (rowAt s f).jobId (rowAt s f).pageNumber with
      inMemory := false, pageFrameId := -1, referenced := oldRef } with hout
  set JT1 : Int → JobTableRow :=
    setRow s.JT (rowAt s f).jobId (rowAt s f).pageNumber outRow with hJT1
  set newRow : PageMapTableRow :=
    { getRow JT1 j p with
      pageFrameId := (f : Int), inMemory := true, referenced := newRef } with hnewR
  set T : SimState :=
    { JT := setRow JT1 j p newRow,
      MMT := s.MMT.set f ({ rowAt s f with pageNumber := p, jobId := j, busy := true }),
      fifoQueue := q', pageFaults := n, pageHits := m, log := L } with hT
  have hgetJT1 : ∀ a b, getRow JT1 a b =
      if a = (rowAt s f).jobId ∧ b = (rowAt s f).pageNumber then outRow
      else getRow s.JT a b :=
    fun a b => getRow_setRow _ _ _ _ a b
  have hget : ∀ a b, getRow T.JT a b =
      if a = j ∧ b = p then newRow
      else if a = (rowAt s f).jobId ∧ b = (rowAt s f).pageNumber then outRow
      else getRow s.JT a b := by
    intro a b
    show getRow (setRow JT1 j p newRow) a b = _
    rw [getRow_setRow]
    by_cases hab : a = j ∧ b = p
    · rw [if_pos hab, if_pos hab]
    · rw [if_neg hab, if_neg hab]
      exact hgetJT1 a b
  have hnewMem : newRow.inMemory = true := rfl
  have hnewFid : newRow.pageFrameId = (f : Int) := rfl
  have hnewRefE : newRow.referenced = newRef := rfl
  have houtMem : outRow.inMemory = false := rfl
  have hrowAt_f : rowAt T f = { rowAt s f with pageNumber := p, jobId := j, busy := true } := by
    rw [rowAt]
    exact getD_set_self _ _ _ _ (by omega)
  have hrowAt_ne : ∀ k, k ≠ f → rowAt T k = rowAt s k := by
    intro k hk
    rw [rowAt, rowAt]
    exact getD_set_ne _ _ _ _ _ (fun hik => hk hik.symm)
  have hlen : T.MMT.length = s.MMT.length := by simp [hT]
  have hoccne : ∀ k, k < s.MMT.length → k ≠ f → (rowAt s k).busy = true →
      ¬((rowAt s k).jobId = j ∧ (rowAt s k).pageNumber = p) ∧
      ¬((rowAt s k).jobId = (rowAt s f).jobId ∧
        (rowAt s k).pageNumber = (rowAt s f).pageNumber) := by
    intro k hk hkf hbk
    constructor
    · intro hc
      have := (h2 k hk hbk).1
      rw [hc.1, hc.2, hres] at this
      simp at this
    · intro hc
      have hk2 := h2 k hk hbk
      rw [hc.1, hc.2] at hk2
      have hkf2 : (k : Int) = (f : Int) := by rw [← hk2.2, hocc.2]
      exact hkf (by exact_mod_cast hkf2)
  refine ⟨?_, ?_, ?_, ?_, ?_, ?_⟩
  · intro k hk
    by_cases hkf : k = f
    · subst hkf
      rw [hrowAt_f]
      exact h1 k (by omega)
    · rw [hrowAt_ne k hkf]
      exact h1 k (by omega)
  · intro k hk hb
    by_cases hkf : k = f
    · subst hkf
      rw [hrowAt_f]
      show (getRow T.JT j p).inMemory = true ∧ (getRow T.JT j p).pageFrameId = (k : Int)
      rw [hget, if_pos ⟨rfl, rfl⟩]
      exact ⟨hnewMem, hnewFid⟩
    · rw [hrowAt_ne k hkf] at hb ⊢
      have hkl : k < s.MMT.length := by omega
      obtain ⟨hne1, hne2⟩ := hoccne k hkl hkf hb
      rw [hget, if_neg hne1, if_neg hne2]
      exact h2 k hkl hb
  · intro a b hm
    rw [hget] at hm
    by_cases hab : a = j ∧ b = p
    · obtain ⟨rfl, rfl⟩ := hab
      refine ⟨f, by omega, ?_, ?_, ?_, ?_⟩
      · rw [hrowAt_f]
      · rw [hrowAt_f]
      · rw [hrowAt_f]
      · rw [hget, if_pos ⟨rfl, rfl⟩]
    · rw [if_neg hab] at hm
      by_cases hab2 : a = (rowAt s f).jobId ∧ b = (rowAt s f).pageNumber
      · rw [if_pos hab2, houtMem] at hm
        simp at hm
      · rw [if_neg hab2] at hm
        obtain ⟨k, hk, hb, hj', hp', hfid⟩ := h3 a b hm
        have hkf : k ≠ f := by
          intro hkf
          subst hkf
          exact hab2 ⟨hj'.symm, hp'.symm⟩
        refine ⟨k, by omega, ?_, ?_, ?_, ?_⟩
        · rw [hrowAt_ne k hkf]; exact hb
        · rw [hrowAt_ne k hkf]; exact hj'
        · rw [hrowAt_ne k hkf]; exact hp'
        · rw [hget, if_neg hab, if_neg hab2]; exact hfid
  · intro a b
    rw [hget]
    by_cases hab : a = j ∧ b = p
    · rw [if_pos hab, hnewRefE]; exact hnewRef
    · rw [if_neg hab]
      by_cases hab2 : a = (rowAt s f).jobId ∧ b = (rowAt s f).pageNumber
      · rw [if_pos hab2]
        show oldRef < 256
        exact holdRef
      · rw [if_neg hab2]; exact h4 a b
  · intro k hk hb
    by_cases hkf : k = f
    · subst hkf
      exact hq2
    · rw [hrowAt_ne k hkf] at hb
      exact hq1 k (by omega) hb hkf
  · intro g hg
    obtain ⟨hgl, hgb⟩ := hq3 g hg
    by_cases hgf : g = f
    · subst hgf
      refine ⟨by omega, ?_⟩
      rw [hrowAt_f]
    · refine ⟨by omega, ?_⟩
      rw [hrowAt_ne g hgf]
      exact hgb

/-- Computation of `FIFO` in the replacement case. -/
theorem FIFO_replace_eq (s : SimState) (j p : Int) (f : Nat) (rest : List Nat)
    (hfree : firstFreeIdx s.MMT = none) (hq : s.fifoQueue = f :: rest) :
    FIFO s j p = .ok { s with
      JT := setRow (setRow s.JT (s.MMT.getD f defaultMMTRow).jobId
              (s.MMT.getD f defaultMMTRow).pageNumber
              ({ getRow s.JT (s.MMT.getD f defaultMMTRow).jobId
                   (s.MMT.getD f defaultMMTRow).pageNumber with
                 inMemory := false, pageFrameId := -1 })) j p
              ({ getRow (setRow s.JT (s.MMT.getD f defaultMMTRow).jobId
                   (s.MMT.getD f defaultMMTRow).pageNumber
                   ({ getRow s.JT (s.MMT.getD f defaultMMTRow).jobId
                        (s.MMT.getD f defaultMMTRow).pageNumber with
                      inMemory := false, pageFrameId := -1 })) j p with
                 pageFrameId := (f : Int), inMemory := true }),
      MMT := s.MMT.set f
               ({ s.MMT.getD f defaultMMTRow with
                  pageNumber := p, jobId := j, busy := true }),
      fifoQueue := rest ++ [f],
      log := s.log ++ [.replace j p f (s.MMT.getD f defaultMMTRow).jobId
        (s.MMT.getD f defaultMMTRow).pageNumber] } := by
  simp only [FIFO]
  rw [hfree, hq]

/-- Computation of `LRU` in the replacement case. -/
theorem LRU_replace_eq (s : SimState) (j p : Int) (v : Nat)
    (hfree : firstFreeIdx s.MMT = none)
    (hscan : (lruFold s.JT (none, 255) s.MMT).1 = some v) :
    LRU s j p = .ok { s with
      JT := setRow (setRow s.JT (s.MMT.getD v defaultMMTRow).jobId
              (s.MMT.getD v defaultMMTRow).pageNumber
              ({ getRow s.JT (s.MMT.getD v defaultMMTRow).jobId
                   (s.MMT.getD v defaultMMTRow).pageNumber with
                 inMemory := false, pageFrameId := -1, referenced := 0 })) j p
              ({ getRow (setRow s.JT (s.MMT.getD v defaultMMTRow).jobId
                   (s.MMT.getD v defaultMMTRow).pageNumber
                   ({ getRow s.JT (s.MMT.getD v defaultMMTRow).jobId
                        (s.MMT.getD v defaultMMTRow).pageNumber with
                      inMemory := false, pageFrameId := -1, referenced := 0 })) j p with
                 pageFrameId := (v : Int), inMemory := true, referenced := 128 }),
      MMT := s.MMT.set v
               ({ s.MMT.getD v defaultMMTRow with
                  pageNumber := p, jobId := j, busy := true }),
      log := s.log ++ [.replace j p v (s.MMT.getD v defaultMMTRow).jobId
        (s.MMT.getD v defaultMMTRow).pageNumber] } := by
  simp only [LRU]
  rw [hfree, hscan]

/-! ### Totality and preservation for one access -/

/-- Resolution of one (already aged) access always succeeds on an invariant
state with at least one frame, preserves the invariant, and bumps exactly
the right counter. -/
theorem resolve_total (replacement : Bool) (j p : Int) (s : SimState)
    (hInv : SimInv s) (hlen : 1 ≤ s.MMT.length)
    (hAged : ∀ a b, (getRow s.JT a b).inMemory = true →
      (getRow s.JT a b).referenced < 128) :
    ∃ s', resolvePostAge replacement j p s = .ok s' ∧ SimInv s' ∧
      s'.MMT.length = s.MMT.length ∧
      ((getRow s.JT j p).inMemory = true →
        s'.pageHits = s.pageHits + 1 ∧ s'.pageFaults = s.pageFaults) ∧
      ((getRow s.JT j p).inMemory = false →
        s'.pageFaults = s.pageFaults + 1 ∧ s'.pageHits = s.pageHits) := by
  by_cases hres : (getRow s.JT j p).inMemory = true
  · refine ⟨{ s with
              pageHits := s.pageHits + 1,
              JT := setRow s.JT j p
                      ({ getRow s.JT j p with
                         referenced := (getRow s.JT j p).referenced ||| 128 }),
              log := s.log ++ [.hit j p] }, ?_, ?_, rfl, fun _ => ⟨rfl, rfl⟩, fun hc => ?_⟩
    · simp only [resolvePostAge]
      rw [if_pos hres]
    · exact simInv_hit s j p hInv s.pageFaults (s.pageHits + 1) (s.log ++ [.hit j p])
    · rw [hres] at hc
      simp at hc
  · have hres' : (getRow s.JT j p).inMemory = false := by
      cases hmem : (getRow s.JT j p).inMemory
      · rfl
      · exact absurd hmem hres
    cases hfree : firstFreeIdx s.MMT with
    | some i =>
        obtain ⟨hi, hfr⟩ := firstFreeIdx_some_free s.MMT i hfree
        refine ⟨{ s with
                  pageFaults := s.pageFaults + 1,
                  JT := setRow s.JT j p
                          ({ getRow s.JT j p with
                             pageFrameId := (i : Int), inMemory := true, referenced := 128 }),
                  MMT := s.MMT.set i
                           ({ rowAt s i with pageNumber := p, jobId := j, busy := true }),
                  fifoQueue := s.fifoQueue ++ [i],
                  log := s.log ++ [.loadFree j p i] },
                ?_, ?_, by simp, fun hc => ?_, fun _ => ⟨rfl, rfl⟩⟩
        · simp only [resolvePostAge]
          rw [if_neg (by simp [hres']), hfree]
          rfl
        · exact simInv_freeload s j p i (s.pageFaults + 1) s.pageHits
            (s.log ++ [.loadFree j p i]) hInv hres' hi hfr
        · rw [hres'] at hc
          simp at hc
    | none =>
        have hallb : ∀ i, i < s.MMT.length → (rowAt s i).busy = true :=
          firstFreeIdx_none_busy s.MMT hfree
        cases replacement with
        | true =>
            cases hq : s.fifoQueue with
            | nil =>
                exfalso
                have hb0 : (rowAt s 0).busy = true := hallb 0 (by omega)
                have h0 := hInv.qmem 0 (by omega) hb0
                rw [hq] at h0
                simp at h0
            | cons f rest =>
                have hfq : f ∈ s.fifoQueue := by
                  rw [hq]
                  exact List.mem_cons_self f rest
                obtain ⟨hfl, hfb⟩ := hInv.qval f hfq
                have hocc := hInv.f2p f hfl hfb
                have hne : ¬(j = (rowAt s f).jobId ∧ p = (rowAt s f).pageNumber) := by
                  intro hc
                  rw [hc.1, hc.2, hocc.1] at hres'
                  simp at hres'
                refine ⟨{ s with
                          pageFaults := s.pageFaults + 1,
                          JT := setRow (setRow s.JT (rowAt s f).jobId (rowAt s f).pageNumber
                                  ({ getRow s.JT (rowAt s f).jobId (rowAt s f).pageNumber with
                                     inMemory := false, pageFrameId := -1 })) j p
                                  ({ getRow (setRow s.JT (rowAt s f).jobId (rowAt s f).pageNumber
                                       ({ getRow s.JT (rowAt s f).jobId (rowAt s f).pageNumber with
                                          inMemory := false, pageFrameId := -1 })) j p with
                                     pageFrameId := (f : Int), inMemory := true }),
                          MMT := s.MMT.set f
                                   ({ rowAt s f with pageNumber := p, jobId := j, busy := true }),
                          fifoQueue := rest ++ [f],
                          log := s.log ++
                            [.replace j p f (rowAt s f).jobId (rowAt s f).pageNumber] },
                        ?_, ?_, by simp, fun hc => ?_, fun _ => ⟨rfl, rfl⟩⟩
                · simp only [resolvePostAge]
                  rw [if_neg (by simp [hres']), hfree]
                  show FIFO { s with pageFaults := s.pageFaults + 1 } j p = _
                  exact FIFO_replace_eq { s with pageFaults := s.pageFaults + 1 } j p f rest
                    hfree hq
                · have hrep := simInv_replace s j p (rowAt s f).jobId (rowAt s f).pageNumber f
                    ((getRow (setRow s.JT (rowAt s f).jobId (rowAt s f).pageNumber
                       ({ getRow s.JT (rowAt s f).jobId (rowAt s f).pageNumber with
                          inMemory := false, pageFrameId := -1,
                          referenced := (getRow s.JT (rowAt s f).jobId
                            (rowAt s f).pageNumber).referenced })) j p).referenced)
                    ((getRow s.JT (rowAt s f).jobId (rowAt s f).pageNumber).referenced)
                    (rest ++ [f]) (s.pageFaults + 1) s.pageHits
                    (s.log ++ [.replace j p f (rowAt s f).jobId (rowAt s f).pageNumber])
                    hInv rfl rfl hres' hfl hfb
                    (by rw [getRow_setRow, if_neg hne]
                        exact hInv.refs j p)
                    (hInv.refs _ _)
                    (fun k hk hb hkf => by
                      have := hInv.qmem k hk hb
                      rw [hq] at this
                      rcases List.mem_cons.mp this with hkf2 | hmem
                      · exact absurd hkf2 hkf
                      · exact List.mem_append_left _ hmem)
                    (List.mem_append_right _ (by simp))
                    (fun g hg => by
                      rcases List.mem_append.mp hg with hg1 | hg2
                      · exact hInv.qval g (by rw [hq]; exact List.mem_cons_of_mem f hg1)
                      · have : g = f := by simpa using hg2
                        subst this
                        exact hInv.qval g hfq)
                  exact hrep
                · rw [hres'] at hc
                  simp at hc
        | false =>
            have haged : ∀ k, k < s.MMT.length → (s.MMT.getD k defaultMMTRow).busy = true →
                refO s.JT (s.MMT.getD k defaultMMTRow) < 255 := by
              intro k hk hb
              have h2k := hInv.f2p k hk hb
              have hx := hAged (rowAt s k).jobId (rowAt s k).pageNumber h2k.1
              show (getRow s.JT (rowAt s k).jobId (rowAt s k).pageNumber).referenced < 255
              omega
            obtain ⟨sp1, sp2, sp3⟩ := lruFold_spec s.JT s.MMT (none, 255)
            rcases sp3 with ⟨hEq, hAll⟩ | ⟨k, hk, hbk, hscan1, hscan2, hlt', htie⟩
            · exfalso
              have hb0 : (s.MMT.getD 0 defaultMMTRow).busy = true := hallb 0 (by omega)
              have hbound := sp2 0 (by omega) hb0
              rw [hEq] at hbound
              have hsm := haged 0 (by omega) hb0
              have h255 : (255 : Nat) ≤ refO s.JT (s.MMT.getD 0 defaultMMTRow) := hbound
              omega
            · have hpfn : (s.MMT.getD k defaultMMTRow).pageFrameNumber = k :=
                hInv.frames k hk
              rw [hpfn] at hscan1
              refine ⟨{ s with
                        pageFaults := s.pageFaults + 1,
                        JT := setRow (setRow s.JT (rowAt s k).jobId (rowAt s k).pageNumber
                                ({ getRow s.JT (rowAt s k).jobId (rowAt s k).pageNumber with
                                   inMemory := false, pageFrameId := -1, referenced := 0 })) j p
                                ({ getRow (setRow s.JT (rowAt s k).jobId (rowAt s k).pageNumber
                                     ({ getRow s.JT (rowAt s k).jobId (rowAt s k).pageNumber with
                                        inMemory := false, pageFrameId := -1, referenced := 0 })) j p with
                                   pageFrameId := (k : Int), inMemory := true, referenced := 128 }),
                        MMT := s.MMT.set k
                                 ({ rowAt s k with pageNumber := p, jobId := j, busy := true }),
                        log := s.log ++
                          [.replace j p k (rowAt s k).jobId (rowAt s k).pageNumber] },
                      ?_, ?_, by simp, fun hc => ?_, fun _ => ⟨rfl, rfl⟩⟩
              · simp only [resolvePostAge]
                rw [if_neg (by simp [hres']), hfree]
                show LRU { s with pageFaults := s.pageFaults + 1 } j p = _
                exact LRU_replace_eq { s with pageFaults := s.pageFaults + 1 } j p k
                  hfree hscan1
              · have hne : ¬(j = (rowAt s k).jobId ∧ p = (rowAt s k).pageNumber) := by
                  intro hc
                  have h2k := hInv.f2p k hk hbk
                  rw [hc.1, hc.2, h2k.1] at hres'
                  simp at hres'
                exact simInv_replace s j p (rowAt s k).jobId (rowAt s k).pageNumber k
                  128 0 s.fifoQueue (s.pageFaults + 1) s.pageHits
                  (s.log ++ [.replace j p k (rowAt s k).jobId (rowAt s k).pageNumber])
                  hInv rfl rfl hres' hk hbk (by omega) (by omega)
                  (fun g hg hb _ => hInv.qmem g hg hb)
                  (hInv.qmem k hk hbk)
                  hInv.qval
              · rw [hres'] at hc
                simp at hc

/-- One simulation-loop iteration always succeeds on an invariant state with
at least one frame, and preserves the invariant and the frame count. -/
theorem step_total (replacement : Bool) (j p : Int) (s : SimState)
    (hInv : SimInv s) (hlen : 1 ≤ s.MMT.length) :
    ∃ s', accessStep replacement j p s = .ok s' ∧ SimInv s' ∧
      s'.MMT.length = s.MMT.length := by
  by_cases hk : (s.JT j).pmtKeys = []
  · exact ⟨s, by simp [accessStep, hk], hInv, rfl⟩
  · have hInv1 := simInv_registerKey s j p hInv
    have hInv2 := simInv_age (registerKey s j p) hInv1
    have hAged2 := aged_refs_small (registerKey s j p) hInv1
    obtain ⟨s', hok, hInv', hlen', _, _⟩ :=
      resolve_total replacement j p
        { registerKey s j p with JT := ageJT (registerKey s j p).JT }
        hInv2 hlen hAged2
    refine ⟨s', ?_, hInv', hlen'⟩
    simp only [accessStep]
    rw [if_neg hk]
    exact hok

/-- A whole run always succeeds on an invariant state with at least one
frame, and preserves the invariant and the frame count. -/
theorem run_total (replacement : Bool) :
    ∀ (trace : List (Int × Int)) (s : SimState), SimInv s → 1 ≤ s.MMT.length →
      ∃ s', runSim replacement trace s = .ok s' ∧ SimInv s' ∧
        s'.MMT.length = s.MMT.length := by
  intro trace
  induction trace with
  | nil => intro s hInv _; exact ⟨s, rfl, hInv, rfl⟩
  | cons a rest IH =>
      intro s hInv hlen
      obtain ⟨s1, hok1, hInv1, hlen1⟩ := step_total replacement a.1 a.2 s hInv hlen
      obtain ⟨s2, hok2, hInv2, hlen2⟩ := IH s1 hInv1 (by omega)
      refine ⟨s2, ?_, hInv2, by omega⟩
      simp only [runSim]
      rw [hok1]
      exact hok2

/-! ### Claim theorems -/

theorem sum_map_const {α : Type} (l : List α) (c : Nat) :
    (l.map (fun _ => c)).sum = l.length * c := by
  induction l with
  | nil => simp
  | cons x xs IH => simp [IH, Nat.succ_mul]; omega

/-- C3: for every job of size `S ≥ 1` and page size `P ≥ 1`,
`divideIntoPages` returns exactly `⌈S/P⌉` pages with ids `0..⌈S/P⌉-1` whose
sizes sum to `S` — `⌊S/P⌋` full pages of size `P` plus one remainder page of
size `S mod P` when nonzero — and the internal fragmentation
`P - lastPageSize` computed by the driver is `0` exactly when `P ∣ S`
(and is then below the `> 0` reporting threshold), else `P - S mod P`. -/
theorem c3_split_spec (id : Int) (S P : Nat) (hS : 1 ≤ S) (hP : 1 ≤ P) :
    (divideIntoPages { id := id, size := S } P).1.length = (S + P - 1) / P ∧
    (divideIntoPages { id := id, size := S } P).1.map Page.id =
      List.range ((divideIntoPages { id := id, size := S } P).1.length) ∧
    ((divideIntoPages { id := id, size := S } P).1.map Page.size).sum = S ∧
    (∀ k, k < S / P →
      ((divideIntoPages { id := id, size := S } P).1.getD k { id := 0, size := 0 }).size = P) ∧
    (S % P ≠ 0 →
      ((divideIntoPages { id := id, size := S } P).1.getLastD { id := 0, size := 0 }).size
        = S % P) ∧
    (P - ((divideIntoPages { id := id, size := S } P).1.getLastD { id := 0, size := 0 }).size
      = if S % P = 0 then 0 else P - S % P) ∧
    (0 < P - ((divideIntoPages { id := id, size := S } P).1.getLastD { id := 0, size := 0 }).size
      ↔ S % P ≠ 0) := by
  have hpages : (divideIntoPages { id := id, size := S } P).1 = pagesLoop 0 S P := rfl
  have hcf := pagesLoop_closed P (by omega) S 0
  have hmod := Nat.div_add_mod S P
  have hmodlt : S % P < P := Nat.mod_lt _ (by omega)
  by_cases hr : S % P = 0
  · have hq1 : 1 ≤ S / P := by
      by_cases h : S / P = 0
      · rw [h] at hmod
        simp at hmod
        omega
      · exact Nat.one_le_iff_ne_zero.mpr h
    have hcf0 : pagesLoop 0 S P = (List.range (S / P)).map (fun k => Page.mk k P) := by
      rw [hcf, hr]
      simp
    obtain ⟨q2, hq2⟩ : ∃ q2, S / P = q2 + 1 := ⟨S / P - 1, by omega⟩
    refine ⟨?_, ?_, ?_, ?_, ?_, ?_, ?_⟩
    · rw [hpages, hcf0, ceil_div_eq S P (by omega), hr]
      simp
    · rw [hpages, hcf0, List.map_map]
      simp [Function.comp_def]
    · rw [hpages, hcf0, List.map_map,
        show (Page.size ∘ fun k : Nat => Page.mk k P) = fun _ => P from rfl, sum_map_const]
      simp only [List.length_range]
      have hcomm := Nat.mul_comm (S / P) P
      omega
    · intro k hk
      rw [hpages, hcf0, getD_range_map _ _ _ _ hk]
    · intro hc
      exact absurd hr hc
    · rw [hpages, hcf0, hq2, List.range_succ, List.map_append]
      simp only [List.map_cons, List.map_nil]
      rw [List.getLastD_concat, if_pos hr]
      simp
    · rw [hpages, hcf0, hq2, List.range_succ, List.map_append]
      simp only [List.map_cons, List.map_nil]
      rw [List.getLastD_concat]
      simp [hr]
  · have hcf1 : pagesLoop 0 S P =
        (List.range (S / P)).map (fun k => Page.mk k P) ++ [Page.mk (S / P) (S % P)] := by
      rw [hcf]
      simp [hr]
    refine ⟨?_, ?_, ?_, ?_, ?_, ?_, ?_⟩
    · rw [hpages, hcf1, ceil_div_eq S P (by omega), if_neg hr]
      simp
    · rw [hpages, hcf1, List.map_append, List.map_map]
      simp only [List.map_cons, List.map_nil]
      rw [show (List.map (Page.id ∘ fun k : Nat => Page.mk k P) (List.range (S / P)))
          = List.range (S / P) by simp [Function.comp_def]]
      simp [List.range_succ]
    · rw [hpages, hcf1, List.map_append, List.map_map,
        show (Page.size ∘ fun k : Nat => Page.mk k P) = fun _ => P from rfl]
      simp only [List.map_cons, List.map_nil]
      rw [List.sum_append, sum_map_const]
      simp only [List.length_range, List.sum_cons, List.sum_nil]
      have hsize : (Page.mk (S / P) (S % P)).size = S % P := rfl
      have hcomm := Nat.mul_comm (S / P) P
      omega
    · intro k hk
      rw [hpages, hcf1, getD_append_lt _ _ _ _ (by simpa using hk),
        getD_range_map _ _ _ _ hk]
    · intro _
      rw [hpages, hcf1, List.getLastD_concat]
    · rw [hpages, hcf1, List.getLastD_concat]
      show P - S % P = if S % P = 0 then 0 else P - S % P
      rw [if_neg hr]
    · rw [hpages, hcf1, List.getLastD_concat]
      show 0 < P - S % P ↔ S % P ≠ 0
      constructor
      · intro _
        exact hr
      · intro _
        omega

/-- C8 witness companion theorem is below; this is the claim: `split` — the
validated `divideIntoPages` pipeline of `paged.cpp` `main` — and the input
validation of `demand.cpp` `main` reject every non-positive page size or job
size with `InvalidInput`. -/
theorem c8_invalid_input :
    (∀ P S : Int, P ≤ 0 ∨ S ≤ 0 → splitChecked P S = .error .InvalidInput) ∧
    (∀ (ps nj nf na : Int) (sizes : List Int),
        ps ≤ 0 ∨ (∃ sz ∈ sizes, sz ≤ 0) →
        validateSimInputs ps nj nf na sizes = .error .InvalidInput) := by
  constructor
  · intro P S h
    by_cases hP : P ≤ 0
    · unfold splitChecked
      rw [if_pos hP]
    · have hS : S ≤ 0 := by tauto
      unfold splitChecked
      rw [if_neg hP, if_pos hS]
  · intro ps nj nf na sizes h
    by_cases hps : ps ≤ 0 ∨ nj ≤ 0 ∨ nf ≤ 0 ∨ na ≤ 0
    · unfold validateSimInputs
      rw [if_pos hps]
    · have hsz : ∃ sz ∈ sizes, sz ≤ 0 := by tauto
      obtain ⟨sz, hmem, hle⟩ := hsz
      have hany : sizes.any (fun sz => decide (sz ≤ 0)) = true := by
        rw [List.any_eq_true]
        exact ⟨sz, hmem, by simpa using hle⟩
      unfold validateSimInputs
      rw [if_neg hps, if_pos hany]

/-- C1: with page size 100, one job of size 250 and 2 frames, the trace
(J0,P0),(J0,P1),(J0,P2),(J0,P0) gives: access 1 faults and loads frame 0,
access 2 faults and loads frame 1, access 3 faults and evicts frame 0
(occupant J0/P0) under both FIFO and LRU, access 4 faults again under both,
and the final counts are 4 faults and 0 hits for both policies. -/
theorem c1_end_to_end :
    (simulateDemandPaging 2 100 [{ id := 0, size := 250 }]
        [(0, 0), (0, 1), (0, 2), (0, 0)] true).map
        (fun s => (s.log, s.pageFaults, s.pageHits)) =
      .ok ([.loadFree 0 0 0, .loadFree 0 1 1, .replace 0 2 0 0 0, .replace 0 0 1 0 1],
        4, 0) ∧
    (simulateDemandPaging 2 100 [{ id := 0, size := 250 }]
        [(0, 0), (0, 1), (0, 2), (0, 0)] false).map
        (fun s => (s.log, s.pageFaults, s.pageHits)) =
      .ok ([.loadFree 0 0 0, .loadFree 0 1 1, .replace 0 2 0 0 0, .replace 0 0 1 0 1],
        4, 0) := by
  exact ⟨rfl, rfl⟩

/-- C5: an access that hits leaves the FIFO admission queue (and the whole
MMT) unchanged — the hit frame is neither removed, moved nor re-pushed —
and only the hit counter and log grow. -/
theorem c5_hit_leaves_queue (replacement : Bool) (jobId pageNum : Int) (s : SimState)
    (hk : (s.JT jobId).pmtKeys ≠ [])
    (hres : (getRow s.JT jobId pageNum).inMemory = true) :
    ∃ s', accessStep replacement jobId pageNum s = .ok s' ∧
      s'.fifoQueue = s.fifoQueue ∧ s'.MMT = s.MMT ∧
      s'.pageHits = s.pageHits + 1 ∧ s'.pageFaults = s.pageFaults ∧
      s'.log = s.log ++ [.hit jobId pageNum] := by
  have hres2 : (getRow (ageJT (registerKey s jobId pageNum).JT) jobId pageNum).inMemory
      = true := by
    rw [ageJT_getRow, registerKey_getRow, ageRow_inMemory]
    exact hres
  have hcomp : accessStep replacement jobId pageNum s =
      .ok { registerKey s jobId pageNum with
            JT := setRow (ageJT (registerKey s jobId pageNum).JT) jobId pageNum
                    ({ getRow (ageJT (registerKey s jobId pageNum).JT) jobId pageNum with
                       referenced := (getRow (ageJT (registerKey s jobId pageNum).JT)
                         jobId pageNum).referenced ||| 128 }),
            pageHits := s.pageHits + 1,
            log := s.log ++ [.hit jobId pageNum] } := by
    simp only [accessStep]
    rw [if_neg hk]
    simp only [resolvePostAge]
    rw [if_pos hres2]
    rfl
  exact ⟨_, hcomp, rfl, rfl, rfl, rfl, rfl⟩

/-- C6: a non-skipped loop iteration factors as the aging pass followed by
hit/fault resolution on the aged state: key registration changes no row,
the aging pass shifts the mask of every resident page of every job right by
one exactly once and leaves non-resident rows untouched, and the hit/fault
check (`resolvePostAge`) reads the aged state. -/
theorem c6_aging_before_resolution (replacement : Bool) (jobId pageNum : Int)
    (s : SimState) (hk : (s.JT jobId).pmtKeys ≠ []) :
    accessStep replacement jobId pageNum s =
      resolvePostAge replacement jobId pageNum
        { registerKey s jobId pageNum with
          JT := ageJT (registerKey s jobId pageNum).JT } ∧
    (∀ j p, getRow (registerKey s jobId pageNum).JT j p = getRow s.JT j p) ∧
    (∀ j p, (getRow s.JT j p).inMemory = true →
        getRow (ageJT (registerKey s jobId pageNum).JT) j p =
          { getRow s.JT j p with referenced := (getRow s.JT j p).referenced / 2 }) ∧
    (∀ j p, (getRow s.JT j p).inMemory = false →
        getRow (ageJT (registerKey s jobId pageNum).JT) j p = getRow s.JT j p) := by
  refine ⟨?_, ?_, ?_, ?_⟩
  · simp only [accessStep]
    rw [if_neg hk]
  · exact fun j p => registerKey_getRow s jobId pageNum j p
  · intro j p hm
    rw [ageJT_getRow, registerKey_getRow]
    simp [ageRow, hm]
  · intro j p hm
    rw [ageJT_getRow, registerKey_getRow]
    simp [ageRow, hm]

/-- C9 counterexample: the engine handed an access to the registered job 0
but the never-registered page number 99 does not fail with `UnknownPage`;
the `operator[]` lookup default-registers the page and the access proceeds
to an ordinary fault that loads frame 0. -/
theorem c9_counterexample_fault_not_error :
    (accessStep true 0 99 (initState [{ id := 0, size := 250 }] 2 100)).map
        (fun s => (s.log, s.pageFaults, s.pageHits)) =
      .ok ([.loadFree 0 99 0], 1, 0) := by
  rfl

/-- C9 amended: the lookup can never fail.  An access naming a job with an
empty (unregistered) page table is skipped outright; an access naming a
known job and a non-resident — in particular a never-registered — page
number is default-registered and handled as an ordinary fault. -/
theorem c9_unknown_access_behavior :
    (∀ (replacement : Bool) (s : SimState) (jobId pageNum : Int),
        (s.JT jobId).pmtKeys = [] →
        accessStep replacement jobId pageNum s = .ok s) ∧
    (∀ (replacement : Bool) (s : SimState) (jobId pageNum : Int),
        SimInv s → 1 ≤ s.MMT.length → (s.JT jobId).pmtKeys ≠ [] →
        (getRow s.JT jobId pageNum).inMemory = false →
        ∃ s', accessStep replacement jobId pageNum s = .ok s' ∧
          s'.pageFaults = s.pageFaults + 1 ∧ s'.pageHits = s.pageHits) := by
  constructor
  · intro replacement s jobId pageNum hk
    simp [accessStep, hk]
  · intro replacement s jobId pageNum hInv hlen hk hres
    have hInv1 := simInv_registerKey s jobId pageNum hInv
    have hInv2 := simInv_age (registerKey s jobId pageNum) hInv1
    have hAged2 := aged_refs_small (registerKey s jobId pageNum) hInv1
    obtain ⟨s', hok, _, _, _, hc5⟩ :=
      resolve_total replacement jobId pageNum
        { registerKey s jobId pageNum with JT := ageJT (registerKey s jobId pageNum).JT }
        hInv2 hlen hAged2
    have hres2 : (getRow (ageJT (registerKey s jobId pageNum).JT) jobId pageNum).inMemory
        = false := by
      rw [ageJT_getRow, registerKey_getRow, ageRow_inMemory]
      exact hres
    obtain ⟨hf, hh⟩ := hc5 hres2
    refine ⟨s', ?_, hf, hh⟩
    simp only [accessStep]
    rw [if_neg hk]
    exact hok

/-- C7 counterexample: the two `simulateDemandPaging` calls of `main` seed
independent generators, so one program run can consume different access
sequences in the FIFO and the LRU simulation — here the FIFO run draws
(J0,P0),(J0,P0) and the LRU run draws (J0,P0),(J0,P1), giving incomparable
statistics (1 fault / 1 hit versus 2 faults / 0 hits). -/
theorem c7_counterexample_independent_traces :
    ((mainRun [{ id := 0, size := 250 }] 2 100 [(0, 0), (0, 0)] [(0, 0), (0, 1)]).1).map
        (fun s => (logPairs s.log, s.pageFaults, s.pageHits)) =
      .ok ([(0, 0), (0, 0)], 1, 1) ∧
    ((mainRun [{ id := 0, size := 250 }] 2 100 [(0, 0), (0, 0)] [(0, 0), (0, 1)]).2).map
        (fun s => (logPairs s.log, s.pageFaults, s.pageHits)) =
      .ok ([(0, 0), (0, 1)], 2, 0) := by
  exact ⟨rfl, rfl⟩

/-- C7 amended: each policy's simulation starts from its own freshly reset
memory state — all frames free, no resident page-table entry, empty FIFO
queue, zero fault and hit counters — but consumes the access sequence drawn
by its own independently seeded generator, so the two sequences need not be
identical. -/
theorem c7_fresh_reset_per_policy (jobs : List Job) (numFrames pageSize : Nat)
    (t1 t2 : List (Int × Int)) :
    mainRun jobs numFrames pageSize t1 t2 =
      (runSim true t1 (initState jobs numFrames pageSize),
       runSim false t2 (initState jobs numFrames pageSize)) ∧
    (∀ i, i < (initState jobs numFrames pageSize).MMT.length →
        (rowAt (initState jobs numFrames pageSize) i).busy = false) ∧
    (∀ j p, (getRow (initState jobs numFrames pageSize).JT j p).inMemory = false) ∧
    (initState jobs numFrames pageSize).fifoQueue = [] ∧
    (initState jobs numFrames pageSize).pageFaults = 0 ∧
    (initState jobs numFrames pageSize).pageHits = 0 := by
  refine ⟨rfl, ?_, ?_, rfl, rfl, rfl⟩
  · intro i hi
    rw [initState_length] at hi
    rw [initState_rowAt jobs numFrames pageSize i hi]
  · intro j p
    exact (initState_notInMemory jobs numFrames pageSize j p).1

/-- C2: after any run of the engine from a freshly initialised state with
`numFrames ≥ 1` frames — hence, by quantifying over every trace, after
every access — the busy frames and resident page-table entries are in 1:1
correspondence and the busy count is bounded by the frame count. -/
theorem c2_tables_in_bijection (replacement : Bool) (jobs : List Job)
    (numFrames pageSize : Nat) (trace : List (Int × Int)) (s' : SimState)
    (hframes : 1 ≤ numFrames)
    (hrun : simulateDemandPaging numFrames pageSize jobs trace replacement = .ok s') :
    TablesConsistent s' numFrames := by
  have hlen0 : 1 ≤ (initState jobs numFrames pageSize).MMT.length := by
    rw [initState_length]
    omega
  obtain ⟨s'', hok, hInv, hlen⟩ :=
    run_total replacement trace (initState jobs numFrames pageSize)
      (inv_init jobs numFrames pageSize) hlen0
  have heq : s'' = s' := Except.ok.inj (hok.symm.trans hrun)
  subst heq
  refine ⟨hInv.f2p, ?_, hInv.p2f, ?_, ?_⟩
  · intro i1 i2 h1 h2 hb1 hb2 hj hp
    have e1 := (hInv.f2p i1 h1 hb1).2
    have e2 := (hInv.f2p i2 h2 hb2).2
    rw [hj, hp] at e1
    have : (i1 : Int) = (i2 : Int) := by rw [← e1, e2]
    exact_mod_cast this
  · rw [hlen, initState_length]
  · calc s''.MMT.countP (fun r => r.busy) ≤ s''.MMT.length := List.countP_le_length _
    _ = numFrames := by rw [hlen, initState_length]

/-- C4: whenever `LRU` replacement runs with every frame busy (and, as at
every in-program invocation right after the aging pass, every resident mask
below 0xFF), the victim is the busy frame whose resident page has the
smallest referenced mask, ties broken by the smallest frame index, and the
replacement succeeds logging exactly that victim. -/
theorem c4_lru_picks_minimum (s : SimState) (j p : Int)
    (hlen : 0 < s.MMT.length)
    (hframes : ∀ i, i < s.MMT.length → (rowAt s i).pageFrameNumber = i)
    (hbusy : ∀ i, i < s.MMT.length → (rowAt s i).busy = true)
    (hrefs : ∀ i, i < s.MMT.length → refOfFrame s i < 255) :
    ∃ v, v < s.MMT.length ∧
      (lruFold s.JT (none, 255) s.MMT).1 = some v ∧
      (∀ i, i < s.MMT.length → refOfFrame s v ≤ refOfFrame s i) ∧
      (∀ i, i < s.MMT.length → refOfFrame s i = refOfFrame s v → v ≤ i) ∧
      ∃ s', LRU s j p = .ok s' ∧
        s'.log = s.log ++ [.replace j p v (rowAt s v).jobId (rowAt s v).pageNumber] := by
  obtain ⟨sp1, sp2, sp3⟩ := lruFold_spec s.JT s.MMT (none, 255)
  rcases sp3 with ⟨hEq, hAll⟩ | ⟨k, hk, hbk, hscan1, hscan2, hlt', htie⟩
  · exfalso
    have hb0 := hbusy 0 hlen
    have hbound := sp2 0 hlen hb0
    rw [hEq] at hbound
    have hsm : refOfFrame s 0 < 255 := hrefs 0 hlen
    have h255 : (255 : Nat) ≤ refOfFrame s 0 := hbound
    omega
  · have hpfn : (s.MMT.getD k defaultMMTRow).pageFrameNumber = k := hframes k hk
    rw [hpfn] at hscan1
    refine ⟨k, hk, hscan1, ?_, ?_, ?_⟩
    · intro i hi
      have hb := sp2 i hi (hbusy i hi)
      rw [hscan2] at hb
      exact hb
    · intro i hi heq
      by_cases hik : i < k
      · exfalso
        have ht := htie i hik (hbusy i hi)
        rw [hscan2] at ht
        have ht2 : refOfFrame s k < refOfFrame s i := ht
        omega
      · omega
    · have hfree : firstFreeIdx s.MMT = none :=
        firstFreeIdx_none_of_all_busy s.MMT (fun i hi => hbusy i hi)
      exact ⟨_, LRU_replace_eq s j p k hfree hscan1, rfl⟩

/-- C10: the `NoVictimAvailable` throws are raised only with zero occupied
frames — `FIFO` only with an empty queue, which under the invariant means
no busy frame, `LRU` only when the scan finds nothing, which with in-range
masks means no busy frame — and in every run of `simulateDemandPaging` with
`numFrames ≥ 1` the failure branch is unreachable: the run always returns
normally. -/
theorem c10_no_victim_unreachable :
    (∀ (s : SimState) (j p : Int), SimInv s →
        FIFO s j p = .error .NoVictimAvailable →
        ∀ i, i < s.MMT.length → (rowAt s i).busy = false) ∧
    (∀ (s : SimState) (j p : Int), SimInv s →
        (∀ i, i < s.MMT.length → (rowAt s i).busy = true → refOfFrame s i < 255) →
        LRU s j p = .error .NoVictimAvailable →
        ∀ i, i < s.MMT.length → (rowAt s i).busy = false) ∧
    (∀ (replacement : Bool) (jobs : List Job) (numFrames pageSize : Nat)
        (trace : List (Int × Int)), 1 ≤ numFrames →
        ∃ s', simulateDemandPaging numFrames pageSize jobs trace replacement = .ok s') := by
  refine ⟨?_, ?_, ?_⟩
  · intro s j p hInv herr i hi
    cases hfree : firstFreeIdx s.MMT with
    | some idx =>
        exfalso
        simp only [FIFO] at herr
        rw [hfree] at herr
        simp at herr
    | none =>
        cases hq : s.fifoQueue with
        | cons f rest =>
            exfalso
            simp only [FIFO] at herr
            rw [hfree, hq] at herr
            simp at herr
        | nil =>
            cases hb : (rowAt s i).busy
            · rfl
            · exfalso
              have hmem := hInv.qmem i hi hb
              rw [hq] at hmem
              simp at hmem
  · intro s j p hInv hsmall herr i hi
    cases hfree : firstFreeIdx s.MMT with
    | some idx =>
        exfalso
        simp only [LRU] at herr
        rw [hfree] at herr
        simp at herr
    | none =>
        cases hb : (rowAt s i).busy
        · rfl
        · exfalso
          obtain ⟨sp1, sp2, sp3⟩ := lruFold_spec s.JT s.MMT (none, 255)
          rcases sp3 with ⟨hEq, hAll⟩ | ⟨k, hk, hbk, hscan1, hscan2, hlt', htie⟩
          · have h255 := hAll i hi hb
            have hsm := hsmall i hi hb
            have h255' : (255 : Nat) ≤ refOfFrame s i := h255
            omega
          · simp only [LRU] at herr
            rw [hfree, hscan1] at herr
            simp at herr
  · intro replacement jobs numFrames pageSize trace hframes
    have hlen0 : 1 ≤ (initState jobs numFrames pageSize).MMT.length := by
      rw [initState_length]
      omega
    obtain ⟨s', hok, _, _⟩ :=
      run_total replacement trace (initState jobs numFrames pageSize)
        (inv_init jobs numFrames pageSize) hlen0
    exact ⟨s', hok⟩

/-- Witness for C3 at job size 250 and page size 100. -/
theorem c3_split_spec_witness :
    1 ≤ 250 ∧ 1 ≤ 100 ∧
    ((divideIntoPages { id := 0, size := 250 } 100).1.length = (250 + 100 - 1) / 100 ∧
    (divideIntoPages { id := 0, size := 250 } 100).1.map Page.id =
      List.range ((divideIntoPages { id := 0, size := 250 } 100).1.length) ∧
    ((divideIntoPages { id := 0, size := 250 } 100).1.map Page.size).sum = 250 ∧
    (∀ k, k < 250 / 100 →
      ((divideIntoPages { id := 0, size := 250 } 100).1.getD k { id := 0, size := 0 }).size
        = 100) ∧
    (250 % 100 ≠ 0 →
      ((divideIntoPages { id := 0, size := 250 } 100).1.getLastD { id := 0, size := 0 }).size
        = 250 % 100) ∧
    (100 -
        ((divideIntoPages { id := 0, size := 250 } 100).1.getLastD { id := 0, size := 0 }).size
      = if 250 % 100 = 0 then 0 else 100 - 250 % 100) ∧
    (0 < 100 -
        ((divideIntoPages { id := 0, size := 250 } 100).1.getLastD { id := 0, size := 0 }).size
      ↔ 250 % 100 ≠ 0)) :=
  ⟨by decide, by decide, c3_split_spec 0 250 100 (by decide) (by decide)⟩

/-- Witness for C8 at page size -1 / job size 5 and at a -2 page size for
the simulator validation. -/
theorem c8_invalid_input_witness :
    ((-1 : Int) ≤ 0 ∨ (5 : Int) ≤ 0) ∧
    splitChecked (-1) 5 = .error .InvalidInput ∧
    ((-2 : Int) ≤ 0 ∨ ∃ sz ∈ ([3] : List Int), sz ≤ 0) ∧
    validateSimInputs (-2) 1 1 1 [3] = .error .InvalidInput :=
  ⟨Or.inl (by decide), c8_invalid_input.1 (-1) 5 (Or.inl (by decide)),
   Or.inl (by decide), c8_invalid_input.2 (-2) 1 1 1 [3] (Or.inl (by decide))⟩

/-- Witness for C5 on the concrete one-resident-page state. -/
theorem c5_hit_leaves_queue_witness :
    (hitState.JT 0).pmtKeys ≠ [] ∧
    (getRow hitState.JT 0 0).inMemory = true ∧
    (∃ s', accessStep true 0 0 hitState = .ok s' ∧
      s'.fifoQueue = hitState.fifoQueue ∧ s'.MMT = hitState.MMT ∧
      s'.pageHits = hitState.pageHits + 1 ∧ s'.pageFaults = hitState.pageFaults ∧
      s'.log = hitState.log ++ [.hit 0 0]) :=
  ⟨by decide, by decide, c5_hit_leaves_queue true 0 0 hitState (by decide) (by decide)⟩

/-- Witness for C6 on the freshly initialised C1 state. -/
theorem c6_aging_before_resolution_witness :
    ((initState [{ id := 0, size := 250 }] 2 100).JT 0).pmtKeys ≠ [] ∧
    (accessStep true 0 0 (initState [{ id := 0, size := 250 }] 2 100) =
      resolvePostAge true 0 0
        { registerKey (initState [{ id := 0, size := 250 }] 2 100) 0 0 with
          JT := ageJT (registerKey (initState [{ id := 0, size := 250 }] 2 100) 0 0).JT } ∧
    (∀ j p, getRow (registerKey (initState [{ id := 0, size := 250 }] 2 100) 0 0).JT j p =
        getRow (initState [{ id := 0, size := 250 }] 2 100).JT j p) ∧
    (∀ j p, (getRow (initState [{ id := 0, size := 250 }] 2 100).JT j p).inMemory = true →
        getRow (ageJT (registerKey (initState [{ id := 0, size := 250 }] 2 100) 0 0).JT) j p =
          { getRow (initState [{ id := 0, size := 250 }] 2 100).JT j p with
            referenced :=
              (getRow (initState [{ id := 0, size := 250 }] 2 100).JT j p).referenced / 2 }) ∧
    (∀ j p, (getRow (initState [{ id := 0, size := 250 }] 2 100).JT j p).inMemory = false →
        getRow (ageJT (registerKey (initState [{ id := 0, size := 250 }] 2 100) 0 0).JT) j p =
          getRow (initState [{ id := 0, size := 250 }] 2 100).JT j p)) :=
  ⟨by decide,
   c6_aging_before_resolution true 0 0 (initState [{ id := 0, size := 250 }] 2 100) (by decide)⟩

/-- Witness for the amended C9 on a fresh state and the unregistered page
number 99 of the registered job 0. -/
theorem c9_unknown_access_behavior_witness :
    SimInv (initState [{ id := 0, size := 250 }] 2 100) ∧
    1 ≤ (initState [{ id := 0, size := 250 }] 2 100).MMT.length ∧
    ((initState [{ id := 0, size := 250 }] 2 100).JT 0).pmtKeys ≠ [] ∧
    (getRow (initState [{ id := 0, size := 250 }] 2 100).JT 0 99).inMemory = false ∧
    (∃ s', accessStep true 0 99 (initState [{ id := 0, size := 250 }] 2 100) = .ok s' ∧
      s'.pageFaults = (initState [{ id := 0, size := 250 }] 2 100).pageFaults + 1 ∧
      s'.pageHits = (initState [{ id := 0, size := 250 }] 2 100).pageHits) :=
  ⟨inv_init _ _ _, by decide, by decide, by decide,
   c9_unknown_access_behavior.2 true (initState [{ id := 0, size := 250 }] 2 100) 0 99
     (inv_init _ _ _) (by decide) (by decide) (by decide)⟩

/-- Witness for the amended C7 at a concrete job list and trace pair. -/
theorem c7_fresh_reset_per_policy_witness :
    mainRun [{ id := 0, size := 250 }] 2 100 [(0, 0)] [(0, 1)] =
      (runSim true [(0, 0)] (initState [{ id := 0, size := 250 }] 2 100),
       runSim false [(0, 1)] (initState [{ id := 0, size := 250 }] 2 100)) ∧
    (∀ i, i < (initState [{ id := 0, size := 250 }] 2 100).MMT.length →
        (rowAt (initState [{ id := 0, size := 250 }] 2 100) i).busy = false) ∧
    (∀ j p, (getRow (initState [{ id := 0, size := 250 }] 2 100).JT j p).inMemory = false) ∧
    (initState [{ id := 0, size := 250 }] 2 100).fifoQueue = [] ∧
    (initState [{ id := 0, size := 250 }] 2 100).pageFaults = 0 ∧
    (initState [{ id := 0, size := 250 }] 2 100).pageHits = 0 :=
  c7_fresh_reset_per_policy [{ id := 0, size := 250 }] 2 100 [(0, 0)] [(0, 1)]

/-- Witness for C2 on the concrete C1 FIFO run. -/
theorem c2_tables_in_bijection_witness :
    1 ≤ 2 ∧
    simulateDemandPaging 2 100 [{ id := 0, size := 250 }]
      [(0, 0), (0, 1), (0, 2), (0, 0)] true = .ok runState ∧
    TablesConsistent runState 2 :=
  ⟨by decide, rfl,
   c2_tables_in_bijection true [{ id := 0, size := 250 }] 2 100
     [(0, 0), (0, 1), (0, 2), (0, 0)] runState (by decide) rfl⟩

/-- Witness for C4 on the concrete all-busy state. -/
theorem c4_lru_picks_minimum_witness :
    0 < fullState.MMT.length ∧
    (∀ i, i < fullState.MMT.length → (rowAt fullState i).pageFrameNumber = i) ∧
    (∀ i, i < fullState.MMT.length → (rowAt fullState i).busy = true) ∧
    (∀ i, i < fullState.MMT.length → refOfFrame fullState i < 255) ∧
    (∃ v, v < fullState.MMT.length ∧
      (lruFold fullState.JT (none, 255) fullState.MMT).1 = some v ∧
      (∀ i, i < fullState.MMT.length → refOfFrame fullState v ≤ refOfFrame fullState i) ∧
      (∀ i, i < fullState.MMT.length →
        refOfFrame fullState i = refOfFrame fullState v → v ≤ i) ∧
      ∃ s', LRU fullState 0 0 = .ok s' ∧
        s'.log = fullState.log ++
          [.replace 0 0 v (rowAt fullState v).jobId (rowAt fullState v).pageNumber]) :=
  ⟨by decide, by decide, by decide, by decide,
   c4_lru_picks_minimum fullState 0 0 (by decide) (by decide) (by decide) (by decide)⟩

/-- Witness for C10 on the concrete C1 run. -/
theorem c10_no_victim_unreachable_witness :
    1 ≤ 2 ∧
    ∃ s', simulateDemandPaging 2 100 [{ id := 0, size := 250 }]
      [(0, 0), (0, 1), (0, 2), (0, 0)] true = .ok s' :=
  ⟨by decide,
   c10_no_victim_unreachable.2.2 true [{ id := 0, size := 250 }] 2 100
     [(0, 0), (0, 1), (0, 2), (0, 0)] (by decide)⟩
